import Mathlib

/-!
Batch AEAD decryption handler (`decrypt/server.go`) and keyset check (`keysets/main.go`).

The handler `AEAD_DECRYPT` validates the rows of a decoded request one by one and,
for every accepted row, starts a goroutine that base64-decodes and decrypts the row.
The goroutines share `bqResp.ErrorMessage`, `bqResp.Replies`, the cancellation
context and the results slice `objs` with the handler.

The embedding is a small-step interleaving semantics: the handler goroutine and every
row goroutine have a program counter, one scheduler action executes one source
statement of one goroutine, and a schedule (a list of actions) is one interleaving.
Every statement that reads or writes shared state is a step of its own.  Reads and
writes of a shared variable are taken to be atomic (sequential consistency).

Library functions that are not part of the repository (`base64.StdEncoding`,
the Tink `AEAD`, the JSON string encoder) are parameters, collected in `Env`.
-/

namespace BqAead

/-- A Go `string`: a finite sequence of symbols. -/
abbrev GoString := String

/-- A Go `[]byte`.  The conversions `[]byte(s)` and `string(b)` copy the content
unchanged, so both types share one carrier. -/
abbrev Bytes := String

/-- Conversion `[]byte(s)`. -/
@[reducible] def toBytes (s : GoString) : Bytes := s

/-- Conversion `string(b)`. -/
@[reducible] def ofBytes (b : Bytes) : GoString := b

/-- An `interface{}` value as `encoding/json` produces it: a string, a number, a
boolean, `nil`, an array or an object.  Only the string case carries data the
handler looks at. -/
inductive Value where
  | str (s : GoString)
  | num (n : Int)
  | bool (b : Bool)
  | null
  | arr
  | obj
  deriving DecidableEq

/-- The request type of `server.go`. -/
structure bqRequest where
  RequestId : GoString
  Caller : GoString
  SessionUser : GoString
  UserDefinedContext : List (GoString × GoString)
  Calls : List (List Value)

/-- The response type of `server.go`; `Replies = none` is the `nil` slice. -/
structure bqResponse where
  Replies : Option (List GoString)
  ErrorMessage : GoString

/-- The library functions the handler calls. -/
structure Env where
  /-- The function `base64.StdEncoding.DecodeString`; `none` is a decoding error. -/
  b64decode : GoString → Option Bytes
  /-- The method `a.Decrypt(ciphertext, associatedData)`; `none` is an error. -/
  decrypt : Bytes → Bytes → Option Bytes
  /-- The JSON encoding of one string value, quotes included. -/
  quote : GoString → String

/-- Joins the encoded members of a JSON array or object with commas. -/
def joinComma : List String → String
  | [] => ""
  | [x] => x
  | x :: y :: rest => x ++ "," ++ joinComma (y :: rest)

/-- The call `json.Marshal(bqResp)`: both fields carry `omitempty`, so `replies` is
written only when the slice has at least one element and `errorMessage` only when
the string is not empty.  Marshalling a `[]string` and a `string` cannot fail. -/
def marshal (env : Env) (r : bqResponse) : String :=
  let replies : List String :=
    match r.Replies with
    | none => []
    | some [] => []
    | some (x :: xs) => ["\"replies\":[" ++ joinComma ((x :: xs).map env.quote) ++ "]"]
  let err : List String :=
    if r.ErrorMessage = "" then [] else ["\"errorMessage\":" ++ env.quote r.ErrorMessage]
  "\x7b" ++ joinComma (replies ++ err) ++ "\x7d"

/-- The message of `fmt.Sprintf("Invalid number of input fields provided.  expected 2, got  %d", len(r))`. -/
def arityMsg (n : Nat) : GoString :=
  "Invalid number of input fields provided.  expected 2, got  " ++ toString n

/-- The message written when `r[0]` is not a string. -/
def cleartextTypeMsg : GoString := "Invalid cleartext type. expected string"

/-- The message written when `r[1]` is not a string. -/
def aadTypeMsg : GoString := "Invalid aad type. expected string"

/-- The message of `fmt.Sprintf("Error b64decoding row %d", j)`. -/
def b64Msg (j : Nat) : GoString := "Error b64decoding row " ++ toString j

/-- The message of `fmt.Sprintf("Error decrypting row %d", j)`. -/
def decryptMsg (j : Nat) : GoString := "Error decrypting row " ++ toString j

/-- The message written when the request body cannot be decoded. -/
def bodyMsg (err : GoString) : GoString :=
  "External Function error: can't read POST body " ++ err

/-- Program points of the handler goroutine. -/
inductive MainPc where
  /-- The head of `for i, r := range bqReq.Calls`. -/
  | loopHead (i : Nat)
  /-- The statement `if len(r) != 2 { bqResp.ErrorMessage = ... }`. -/
  | arity (i : Nat) (r : List Value)
  /-- The statement `raw, ok := r[0].(string); if !ok { bqResp.ErrorMessage = ... }`. -/
  | assert0 (i : Nat) (r : List Value)
  /-- The first test `if bqResp.ErrorMessage != ""`. -/
  | check0 (i : Nat) (r : List Value) (raw : GoString)
  /-- The statement `bqResp.Replies = nil; break` of the first test. -/
  | nil0
  /-- The statement `aad, ok := r[1].(string); if !ok { bqResp.ErrorMessage = ... }`. -/
  | assert1 (i : Nat) (r : List Value) (raw : GoString)
  /-- The second test `if bqResp.ErrorMessage != ""`. -/
  | check1 (i : Nat) (raw : GoString) (aad : GoString)
  /-- The statement `bqResp.Replies = nil; break` of the second test. -/
  | nil1
  /-- The statement `wait.Add(1); go func(j int) {...}(i)`. -/
  | spawn (i : Nat) (raw : GoString) (aad : GoString)
  /-- The call `wait.Wait()`. -/
  | wait
  /-- The statement `if bqResp.ErrorMessage != "" { Replies = nil } else { Replies = objs }`. -/
  | final
  /-- The statements `json.Marshal(bqResp)`, `w.Write(b)` and the return. -/
  | marshal
  /-- The handler has returned after writing the body. -/
  | done
  /-- The handler goroutine panicked (index out of range); no body is written. -/
  | panicked
  deriving DecidableEq

/-- Program points of a row goroutine. -/
inductive WorkerPc where
  /-- The head of `for { select { case <-ctx.Done(): return; default: ... } }`. -/
  | loop
  /-- The statement `b, err := base64.StdEncoding.DecodeString(raw)`. -/
  | decode
  /-- The statement `bqResp.ErrorMessage = fmt.Sprintf("Error b64decoding row %d", j)`. -/
  | b64Err
  /-- The statement `bqResp.Replies = nil` after a decoding error. -/
  | b64Nil
  /-- The statements `cancel(); return` after a decoding error. -/
  | b64Cancel
  /-- The statement `ec, err := a.Decrypt(b, []byte(aad))`. -/
  | decrypt (b : Bytes)
  /-- The statement `bqResp.ErrorMessage = fmt.Sprintf("Error decrypting row %d", j)`. -/
  | decErr
  /-- The statement `bqResp.Replies = nil` after a decryption error. -/
  | decNil
  /-- The statements `cancel(); return` after a decryption error. -/
  | decCancel
  /-- The statements `objs[j] = string(ec); return`. -/
  | store (ec : Bytes)
  /-- The goroutine has returned (and `wait.Done()` has run). -/
  | done
  /-- The goroutine panicked (index out of range on `objs`). -/
  | panicked
  deriving DecidableEq

/-- A row goroutine: the argument `j`, the captured `raw` and `aad`, its program
point and the number of times it has entered the head of its `for` loop. -/
structure Worker where
  j : Nat
  raw : GoString
  aad : GoString
  pc : WorkerPc
  iters : Nat

/-- The state of one run of the handler.  `ErrorMessage` and `Replies` are the fields
of `bqResp`, `cancelled` is `ctx`, `body` is what `w.Write` has written.  The lists
`b64Calls`, `decryptCalls` and `errLog` record, in order, the rows for which
`DecodeString` and `a.Decrypt` were called and every value assigned to
`bqResp.ErrorMessage`. -/
structure State where
  main : MainPc
  ErrorMessage : GoString
  Replies : Option (List GoString)
  cancelled : Bool
  objs : List GoString
  workers : List Worker
  body : Option String
  b64Calls : List Nat
  decryptCalls : List Nat
  errLog : List GoString

/-- The response object `bqResp` of a state. -/
def State.bqResp (s : State) : bqResponse := ⟨s.Replies, s.ErrorMessage⟩

/-- The assignment `bqResp.ErrorMessage = m`. -/
def setErr (m : GoString) (s : State) : State :=
  { s with ErrorMessage := m, errLog := s.errLog ++ [m] }

/-- Replaces the goroutine at position `k`. -/
def setWorker (k : Nat) (w : Worker) (s : State) : State :=
  { s with workers := s.workers.set k w }

/-- The state after `json.NewDecoder(r.Body).Decode(&bqReq)`: on an error the message
is set and control is at `json.Marshal`; otherwise `objs` is allocated with one empty
string per call and control is at the head of the loop. -/
def start (body : Except GoString bqRequest) : State :=
  match body with
  | .error e =>
    { main := .marshal, ErrorMessage := bodyMsg e, Replies := none, cancelled := false,
      objs := [], workers := [], body := none, b64Calls := [], decryptCalls := [],
      errLog := [bodyMsg e] }
  | .ok req =>
    { main := .loopHead 0, ErrorMessage := "", Replies := none, cancelled := false,
      objs := List.replicate req.Calls.length "", workers := [], body := none,
      b64Calls := [], decryptCalls := [], errLog := [] }

/-- One statement of the handler goroutine; `none` when it cannot run (it waits in
`wait.Wait()` or has ended). -/
def stepMain (env : Env) (req : bqRequest) (s : State) : Option State :=
  match s.main with
  | .loopHead i =>
    match req.Calls[i]? with
    | some r => some { s with main := .arity i r }
    | none => some { s with main := .wait }
  | .arity i r =>
    if r.length ≠ 2 then some { setErr (arityMsg r.length) s with main := .assert0 i r }
    else some { s with main := .assert0 i r }
  | .assert0 i r =>
    match (r[0]? : Option Value) with
    | none => some { s with main := .panicked, cancelled := true }
    | some (Value.str raw) => some { s with main := .check0 i r raw }
    | some _ => some { setErr cleartextTypeMsg s with main := .check0 i r "" }
  | .check0 i r raw =>
    if s.ErrorMessage ≠ "" then some { s with main := .nil0 }
    else some { s with main := .assert1 i r raw }
  | .nil0 => some { s with Replies := none, main := .wait }
  | .assert1 i r raw =>
    match (r[1]? : Option Value) with
    | none => some { s with main := .panicked, cancelled := true }
    | some (Value.str aad) => some { s with main := .check1 i raw aad }
    | some _ => some { setErr aadTypeMsg s with main := .check1 i raw "" }
  | .check1 i raw aad =>
    if s.ErrorMessage ≠ "" then some { s with main := .nil1 }
    else some { s with main := .spawn i raw aad }
  | .nil1 => some { s with Replies := none, main := .wait }
  | .spawn i raw aad =>
    some { s with
      workers := s.workers ++ [{ j := i, raw := raw, aad := aad, pc := .loop, iters := 0 }],
      main := .loopHead (i + 1) }
  | .wait =>
    if s.workers.all (fun w => decide (w.pc = .done)) then some { s with main := .final }
    else none
  | .final =>
    if s.ErrorMessage ≠ "" then some { s with Replies := none, main := .marshal }
    else some { s with Replies := some s.objs, main := .marshal }
  | .marshal =>
    some { s with body := some (marshal env s.bqResp), cancelled := true, main := .done }
  | .done => none
  | .panicked => none

/-- One statement of the row goroutine at position `k`; `none` when there is no such
goroutine or it has ended. -/
def stepWorker (env : Env) (k : Nat) (s : State) : Option State :=
  match s.workers[k]? with
  | none => none
  | some w =>
    match w.pc with
    | .loop =>
      if s.cancelled then some (setWorker k { w with pc := .done, iters := w.iters + 1 } s)
      else some (setWorker k { w with pc := .decode, iters := w.iters + 1 } s)
    | .decode =>
      match env.b64decode w.raw with
      | none =>
        some (setWorker k { w with pc := .b64Err } { s with b64Calls := s.b64Calls ++ [w.j] })
      | some b =>
        some (setWorker k { w with pc := .decrypt b }
          { s with b64Calls := s.b64Calls ++ [w.j] })
    | .b64Err => some (setWorker k { w with pc := .b64Nil } (setErr (b64Msg w.j) s))
    | .b64Nil => some (setWorker k { w with pc := .b64Cancel } { s with Replies := none })
    | .b64Cancel => some (setWorker k { w with pc := .done } { s with cancelled := true })
    | .decrypt b =>
      match env.decrypt b (toBytes w.aad) with
      | none =>
        some (setWorker k { w with pc := .decErr }
          { s with decryptCalls := s.decryptCalls ++ [w.j] })
      | some ec =>
        some (setWorker k { w with pc := .store ec }
          { s with decryptCalls := s.decryptCalls ++ [w.j] })
    | .decErr => some (setWorker k { w with pc := .decNil } (setErr (decryptMsg w.j) s))
    | .decNil => some (setWorker k { w with pc := .decCancel } { s with Replies := none })
    | .decCancel => some (setWorker k { w with pc := .done } { s with cancelled := true })
    | .store ec =>
      if w.j < s.objs.length then
        some (setWorker k { w with pc := .done } { s with objs := s.objs.set w.j (ofBytes ec) })
      else some (setWorker k { w with pc := .panicked } s)
    | .done => none
    | .panicked => none

/-- A scheduler choice: run the handler goroutine, or the row goroutine that was
started as number `k`. -/
inductive Action where
  | main
  | worker (k : Nat)
  deriving DecidableEq

/-- One step of the chosen goroutine. -/
def step (env : Env) (req : bqRequest) (a : Action) (s : State) : Option State :=
  match a with
  | .main => stepMain env req s
  | .worker k => stepWorker env k s

/-- Runs a schedule; an action whose goroutine cannot run leaves the state unchanged. -/
def exec (env : Env) (req : bqRequest) : List Action → State → State
  | [], s => s
  | a :: rest, s => exec env req rest ((step env req a s).getD s)

/-- The handler `AEAD_DECRYPT` on a decoded request under the interleaving `sched`. -/
def AEAD_DECRYPT (env : Env) (req : bqRequest) (sched : List Action) : State :=
  exec env req sched (start (.ok req))

/-! ## Invariants of the interleaving semantics -/

/-- Row `i` of the request is `r` and every row before it is a pair of strings: the
handler's loop can reach row `i`. -/
def Reached (req : bqRequest) (i : Nat) (r : List Value) : Prop :=
  req.Calls[i]? = some r ∧
    ∀ k, k < i → ∃ raw aad, req.Calls[k]? = some [Value.str raw, Value.str aad]

/-- Where a value assigned to `bqResp.ErrorMessage` comes from: a validation message of a
row the loop reached, or the failure message of a row goroutine whose row fails. -/
inductive MsgSource (env : Env) (req : bqRequest) : GoString → Prop where
  | arity (i : Nat) (r : List Value) :
      Reached req i r → r.length ≠ 2 → MsgSource env req (arityMsg r.length)
  | cleartext (i : Nat) (r : List Value) (v : Value) :
      Reached req i r → r[0]? = some v → (∀ x, v ≠ Value.str x) →
      MsgSource env req cleartextTypeMsg
  | aad (i : Nat) (r : List Value) (raw : GoString) (v : Value) :
      Reached req i r → r.length = 2 → r[0]? = some (Value.str raw) → r[1]? = some v →
      (∀ x, v ≠ Value.str x) → MsgSource env req aadTypeMsg
  | b64 (k : Nat) (raw aad : GoString) :
      Reached req k [Value.str raw, Value.str aad] → env.b64decode raw = none →
      MsgSource env req (b64Msg k)
  | decrypt (k : Nat) (raw aad : GoString) (b : Bytes) :
      Reached req k [Value.str raw, Value.str aad] → env.b64decode raw = some b →
      env.decrypt b (toBytes aad) = none → MsgSource env req (decryptMsg k)

/-- What is known about a row goroutine at each of its program points. -/
def pcOk (env : Env) (s : State) (w : Worker) : Prop :=
  match w.pc with
  | .loop => w.iters = 0
  | .decode => w.iters = 1
  | .b64Err => w.iters = 1 ∧ env.b64decode w.raw = none
  | .b64Nil => w.iters = 1 ∧ env.b64decode w.raw = none ∧ s.ErrorMessage ≠ ""
  | .b64Cancel => w.iters = 1 ∧ env.b64decode w.raw = none ∧ s.ErrorMessage ≠ ""
  | .decrypt b => w.iters = 1 ∧ env.b64decode w.raw = some b
  | .decErr => w.iters = 1 ∧
      ∃ b, env.b64decode w.raw = some b ∧ env.decrypt b (toBytes w.aad) = none
  | .decNil => w.iters = 1 ∧ s.ErrorMessage ≠ "" ∧
      ∃ b, env.b64decode w.raw = some b ∧ env.decrypt b (toBytes w.aad) = none
  | .decCancel => w.iters = 1 ∧ s.ErrorMessage ≠ "" ∧
      ∃ b, env.b64decode w.raw = some b ∧ env.decrypt b (toBytes w.aad) = none
  | .store ec => w.iters = 1 ∧
      ∃ b, env.b64decode w.raw = some b ∧ env.decrypt b (toBytes w.aad) = some ec
  | .done => w.iters = 1 ∧ (s.ErrorMessage ≠ "" ∨
      ∃ b ec, env.b64decode w.raw = some b ∧ env.decrypt b (toBytes w.aad) = some ec ∧
        s.objs[w.j]? = some (ofBytes ec))
  | .panicked => False

/-- The loop was left by `break` at a non-empty row with a message recorded, or it ran
over all rows. -/
def exitOk (req : bqRequest) (s : State) : Prop :=
  (s.ErrorMessage ≠ "" ∧ ∃ r, req.Calls[s.workers.length]? = some r ∧ r ≠ []) ∨
    s.workers.length = req.Calls.length

/-- Every row goroutine has returned. -/
def allDone (s : State) : Prop := ∀ w ∈ s.workers, w.pc = WorkerPc.done

/-- What is known about the handler goroutine at each of its program points. -/
def mainOk (env : Env) (req : bqRequest) (s : State) : Prop :=
  match s.main with
  | .loopHead i => s.workers.length = i
  | .arity i r => s.workers.length = i ∧ req.Calls[i]? = some r
  | .assert0 i r => s.workers.length = i ∧ req.Calls[i]? = some r ∧
      (r.length ≠ 2 → s.ErrorMessage ≠ "")
  | .check0 i r raw => s.workers.length = i ∧ req.Calls[i]? = some r ∧ r ≠ [] ∧
      ((r.length = 2 ∧ r[0]? = some (Value.str raw)) ∨ s.ErrorMessage ≠ "")
  | .nil0 => s.ErrorMessage ≠ "" ∧ ∃ r, req.Calls[s.workers.length]? = some r ∧ r ≠ []
  | .assert1 i r raw => s.workers.length = i ∧ req.Calls[i]? = some r ∧ r.length = 2 ∧
      r[0]? = some (Value.str raw)
  | .check1 i raw aad => s.workers.length = i ∧ (∃ r, req.Calls[i]? = some r ∧ r ≠ []) ∧
      (req.Calls[i]? = some [Value.str raw, Value.str aad] ∨ s.ErrorMessage ≠ "")
  | .nil1 => s.ErrorMessage ≠ "" ∧ ∃ r, req.Calls[s.workers.length]? = some r ∧ r ≠ []
  | .spawn i raw aad => s.workers.length = i ∧
      req.Calls[i]? = some [Value.str raw, Value.str aad]
  | .wait => exitOk req s
  | .final => exitOk req s ∧ allDone s
  | .marshal => exitOk req s ∧ allDone s ∧
      s.Replies = (if s.ErrorMessage = "" then some s.objs else none)
  | .done => exitOk req s ∧ allDone s ∧
      s.Replies = (if s.ErrorMessage = "" then some s.objs else none) ∧
      s.body = some (marshal env s.bqResp)
  | .panicked => req.Calls[s.workers.length]? = some []

/-- The invariant of every state the handler can reach on a decoded request. -/
structure Inv (env : Env) (req : bqRequest) (s : State) : Prop where
  objsLen : s.objs.length = req.Calls.length
  rows : ∀ k w, s.workers[k]? = some w →
    w.j = k ∧ req.Calls[k]? = some [Value.str w.raw, Value.str w.aad] ∧ pcOk env s w
  main : mainOk env req s
  body : s.main ≠ MainPc.done → s.body = none
  cancel : s.main ≠ MainPc.done → s.cancelled = true → s.ErrorMessage ≠ ""
  errLast : s.ErrorMessage = s.errLog.getLast?.getD ""
  errSrc : ∀ m ∈ s.errLog, MsgSource env req m
  decCalls : ∀ j ∈ s.decryptCalls, ∃ w, s.workers[j]? = some w ∧
    ∃ b, env.b64decode w.raw = some b
  b64Calls : ∀ j ∈ s.b64Calls, j < s.workers.length

/-! ## The termination measure -/

/-- The number of statements a row goroutine has still to run, at most. -/
def WorkerPc.rank : WorkerPc → Nat
  | .loop => 6
  | .decode => 5
  | .decrypt _ => 4
  | .b64Err => 3
  | .decErr => 3
  | .b64Nil => 2
  | .decNil => 2
  | .b64Cancel => 1
  | .decCancel => 1
  | .store _ => 1
  | .done => 0
  | .panicked => 0

/-- A bound on the statements the handler goroutine has still to run, counting for
every row not yet visited also the statements of the goroutine it may start. -/
def MainPc.rank (n : Nat) : MainPc → Nat
  | .loopHead i => 20 * (n - i) + 7
  | .arity i _ => 20 * (n - i) + 6
  | .assert0 i _ => 20 * (n - i) + 5
  | .check0 i _ _ => 20 * (n - i) + 4
  | .assert1 i _ _ => 20 * (n - i) + 3
  | .check1 i _ _ => 20 * (n - i) + 2
  | .spawn i _ _ => 20 * (n - i) + 1
  | .nil0 => 4
  | .nil1 => 4
  | .wait => 3
  | .final => 2
  | .marshal => 1
  | .done => 0
  | .panicked => 0

/-- The termination measure of a state. -/
def measure (req : bqRequest) (s : State) : Nat :=
  s.main.rank req.Calls.length + (s.workers.map (fun w => w.pc.rank)).sum

/-! ## Specification-level notions used by the statements -/

/-- Whether a call entry is a pair of strings. -/
def isPair (r : List Value) : Bool :=
  match r with
  | [Value.str _, Value.str _] => true
  | _ => false

/-- The plaintext a call entry stands for: the AEAD decryption of its base64-decoded
first field under the bytes of its second field, when the entry is a pair of strings and
both operations succeed. -/
def rowPlain (env : Env) (r : List Value) : Option Bytes :=
  match r with
  | [Value.str raw, Value.str aad] =>
    (env.b64decode raw).bind (fun b => env.decrypt b (toBytes aad))
  | _ => none

/-- The message `m` is the failure message of a row before `k` that fails: its first field
is not valid base64, or its ciphertext decodes and is rejected. -/
def FailureBefore (env : Env) (req : bqRequest) (k : Nat) (m : GoString) : Prop :=
  ∃ j raw aad, j < k ∧ req.Calls[j]? = some [Value.str raw, Value.str aad] ∧
    ((env.b64decode raw = none ∧ m = b64Msg j) ∨
      (∃ b, env.b64decode raw = some b ∧ env.decrypt b (toBytes aad) = none ∧
        m = decryptMsg j))

/-- A request with the given calls and empty metadata. -/
def mkReq (calls : List (List Value)) : bqRequest :=
  { RequestId := "", Caller := "", SessionUser := "", UserDefinedContext := [],
    Calls := calls }

/-- The calls `[base64(encrypt(p, aad)), aad]` for a list of plaintexts with their
associated data. -/
def roundTripCalls (encode : Bytes → GoString) (encrypt : Bytes → Bytes → Bytes)
    (rows : List (Bytes × GoString)) : List (List Value) :=
  rows.map (fun x => [Value.str (encode (encrypt x.1 (toBytes x.2))), Value.str x.2])

/-- The Tink `AEAD` primitive as `keysets/main.go` uses it. -/
structure AEAD where
  Encrypt : Bytes → Bytes → Option Bytes
  Decrypt : Bytes → Bytes → Option Bytes

/-- The check at the end of `main` in `keysets/main.go`: `a` encrypts `"foo"` with empty
associated data, `b` (built from the keyset read back) decrypts it; the result is the two
lines logged, or `none` when one of the calls ends in `log.Fatal`. -/
def keysetsMain (a b : AEAD) (encode : Bytes → GoString) : Option (List String) :=
  match a.Encrypt (toBytes "foo") (toBytes "") with
  | none => none
  | some ec =>
    match b.Decrypt ec (toBytes "") with
    | none => none
    | some dc => some ["Encrypted Data: " ++ encode ec, "Plain text: " ++ ofBytes dc ++ "\n"]

/-- The loop-free program the row goroutine is compared with: when the context is already
cancelled it returns and touches nothing; otherwise it decodes, decrypts, and either
records the failure, clears `Replies` and cancels, or stores the plaintext in its slot. -/
def workerSpec (env : Env) (k : Nat) (s : State) : State :=
  match s.workers[k]? with
  | none => s
  | some w =>
    if s.cancelled then setWorker k { w with pc := .done, iters := w.iters + 1 } s
    else
      match env.b64decode w.raw with
      | none =>
        setWorker k { w with pc := .done, iters := w.iters + 1 }
          { s with ErrorMessage := b64Msg w.j, errLog := s.errLog ++ [b64Msg w.j],
                   Replies := none, cancelled := true, b64Calls := s.b64Calls ++ [w.j] }
      | some b =>
        match env.decrypt b (toBytes w.aad) with
        | none =>
          setWorker k { w with pc := .done, iters := w.iters + 1 }
            { s with ErrorMessage := decryptMsg w.j, errLog := s.errLog ++ [decryptMsg w.j],
                     Replies := none, cancelled := true, b64Calls := s.b64Calls ++ [w.j],
                     decryptCalls := s.decryptCalls ++ [w.j] }
        | some ec =>
          setWorker k { w with pc := .done, iters := w.iters + 1 }
            { s with objs := s.objs.set w.j (ofBytes ec), b64Calls := s.b64Calls ++ [w.j],
                     decryptCalls := s.decryptCalls ++ [w.j] }

/-! ## A small concrete environment for evaluating the handler -/

/-- A sample decoder: a text is accepted when it starts with `b` and stands for the rest. -/
def sampleDecode (s : GoString) : Option Bytes :=
  match s.data with
  | 'b' :: cs => some ⟨cs⟩
  | _ => none

/-- The encoder matching `sampleDecode`. -/
def sampleEncode (b : Bytes) : GoString := ⟨'b' :: b.data⟩

/-- A sample cipher: the ciphertext is the associated data followed by the plaintext. -/
def sampleEncrypt (p : Bytes) (aad : Bytes) : Bytes := ⟨aad.data ++ p.data⟩

/-- The decryption matching `sampleEncrypt`: it fails unless the ciphertext starts with the
associated data. -/
def sampleDecrypt (c : Bytes) (aad : Bytes) : Option Bytes :=
  if c.data.take aad.data.length = aad.data then some ⟨c.data.drop aad.data.length⟩ else none

/-- The sample environment. -/
def sampleEnv : Env :=
  { b64decode := sampleDecode, decrypt := sampleDecrypt, quote := fun s => "\"" ++ s ++ "\"" }

/-- The sample `AEAD` primitive. -/
def sampleAEAD : AEAD :=
  { Encrypt := fun p aad => some (sampleEncrypt p aad), Decrypt := sampleDecrypt }

/-- The schedule that runs the handler goroutine `n` times. -/
def mainSteps (n : Nat) : List Action := List.replicate n Action.main

/-- The schedule that runs the row goroutine `k` for `n` steps. -/
def workerSteps (k n : Nat) : List Action := List.replicate n (Action.worker k)

end BqAead

namespace BqAead

/-! ## Basic facts about the invariant -/

theorem append_ne_empty (a b : String) (h : a ≠ "") : a ++ b ≠ "" := by
  intro h2
  apply h
  have h3 := congrArg String.data h2
  rw [String.data_append] at h3
  have h4 : a.data = [] := (List.append_eq_nil.mp h3).1
  exact String.ext h4

theorem arityMsg_ne (n : Nat) : arityMsg n ≠ "" := append_ne_empty _ _ (by decide)

theorem cleartextTypeMsg_ne : cleartextTypeMsg ≠ "" := by decide

theorem aadTypeMsg_ne : aadTypeMsg ≠ "" := by decide

theorem b64Msg_ne (n : Nat) : b64Msg n ≠ "" := append_ne_empty _ _ (by decide)

theorem decryptMsg_ne (n : Nat) : decryptMsg n ≠ "" := append_ne_empty _ _ (by decide)

theorem MsgSource.ne_empty {env : Env} {req : bqRequest} {m : GoString}
    (h : MsgSource env req m) : m ≠ "" := by
  cases h
  · exact arityMsg_ne _
  · exact cleartextTypeMsg_ne
  · exact aadTypeMsg_ne
  · exact b64Msg_ne _
  · exact decryptMsg_ne _

/-- The facts about a row goroutine survive any step that keeps a recorded message
non-empty and leaves the goroutine's own slot of `objs` alone. -/
theorem pcOk_mono {env : Env} {s t : State} {w : Worker} (h : pcOk env s w)
    (he : s.ErrorMessage ≠ "" → t.ErrorMessage ≠ "")
    (ho : t.objs[w.j]? = s.objs[w.j]?) : pcOk env t w := by
  rcases w with ⟨j, raw, aad, pc, iters⟩
  cases pc <;> simp only [pcOk] at h ⊢
  · exact h
  · exact h
  · exact h
  · exact ⟨h.1, h.2.1, he h.2.2⟩
  · exact ⟨h.1, h.2.1, he h.2.2⟩
  · exact h
  · exact h
  · exact ⟨h.1, he h.2.1, h.2.2⟩
  · exact ⟨h.1, he h.2.1, h.2.2⟩
  · exact h
  · refine ⟨h.1, ?_⟩
    rcases h.2 with h2 | h2
    · exact Or.inl (he h2)
    · right
      simpa [ho] using h2

/-- The invariant holds when the handler starts on a decoded request. -/
theorem inv_start (env : Env) (req : bqRequest) : Inv env req (start (.ok req)) := by
  refine ⟨?_, ?_, ?_, ?_, ?_, ?_, ?_, ?_, ?_⟩ <;> simp [start, mainOk]

end BqAead

namespace BqAead

/-! ## The handler goroutine preserves the invariant -/

/-- A handler step that leaves the row goroutines, `objs`, the body, the context and
the call logs alone, and either keeps the message or records a sourced one. -/
theorem inv_frame {env : Env} {req : bqRequest} {s t : State} (h : Inv env req s)
    (hw : t.workers = s.workers) (ho : t.objs = s.objs) (hb : t.body = s.body)
    (hc : t.cancelled = s.cancelled) (hd : t.decryptCalls = s.decryptCalls)
    (h6 : t.b64Calls = s.b64Calls) (hmain : mainOk env req t)
    (hsnd : s.main ≠ MainPc.done)
    (herr : (t.ErrorMessage = s.ErrorMessage ∧ t.errLog = s.errLog) ∨
      (∃ m, MsgSource env req m ∧ t.ErrorMessage = m ∧ t.errLog = s.errLog ++ [m])) :
    Inv env req t := by
  have hne : s.ErrorMessage ≠ "" → t.ErrorMessage ≠ "" := by
    intro hs
    rcases herr with ⟨h1, _⟩ | ⟨m, hm, h1, _⟩
    · rw [h1]; exact hs
    · rw [h1]; exact hm.ne_empty
  refine ⟨?_, ?_, hmain, ?_, ?_, ?_, ?_, ?_, ?_⟩
  · rw [ho]; exact h.objsLen
  · intro k w hk
    rw [hw] at hk
    obtain ⟨h1, h2, h3⟩ := h.rows k w hk
    exact ⟨h1, h2, pcOk_mono h3 hne (by rw [ho])⟩
  · intro _
    rw [hb]; exact h.body hsnd
  · intro _ hcan
    rw [hc] at hcan
    exact hne (h.cancel hsnd hcan)
  · rcases herr with ⟨h1, h2⟩ | ⟨m, _, h1, h2⟩
    · rw [h1, h2]; exact h.errLast
    · rw [h1, h2]; simp
  · intro m hm
    rcases herr with ⟨_, h2⟩ | ⟨m0, hm0, _, h2⟩
    · rw [h2] at hm; exact h.errSrc m hm
    · rw [h2] at hm
      rcases List.mem_append.mp hm with hm | hm
      · exact h.errSrc m hm
      · simp at hm; subst hm; exact hm0
  · intro j hj
    rw [hd] at hj
    rw [hw]
    exact h.decCalls j hj
  · intro j hj
    rw [h6] at hj
    rw [hw]
    exact h.b64Calls j hj

/-- Every row before the number of started goroutines is a pair of strings. -/
theorem Inv.reached {env : Env} {req : bqRequest} {s : State} (h : Inv env req s)
    {r : List Value} (hr : req.Calls[s.workers.length]? = some r) :
    Reached req s.workers.length r := by
  refine ⟨hr, ?_⟩
  intro k hk
  have hk2 : s.workers[k]? = some (s.workers[k]) := List.getElem?_eq_getElem hk
  obtain ⟨_, h2, _⟩ := h.rows k _ hk2
  exact ⟨_, _, h2⟩

/-- The row of a started goroutine was reached by the loop. -/
theorem Inv.reached_worker {env : Env} {req : bqRequest} {s : State} (h : Inv env req s)
    {k : Nat} {w : Worker} (hk : s.workers[k]? = some w) :
    Reached req k [Value.str w.raw, Value.str w.aad] := by
  refine ⟨(h.rows k w hk).2.1, ?_⟩
  intro i hi
  have hklt : k < s.workers.length := (List.getElem?_eq_some.mp hk).1
  have hi2 : s.workers[i]? = some (s.workers[i]) := List.getElem?_eq_getElem (by omega)
  obtain ⟨_, h2, _⟩ := h.rows i _ hi2
  exact ⟨_, _, h2⟩

theorem inv_stepMain {env : Env} {req : bqRequest} {s t : State} (h : Inv env req s)
    (hs : stepMain env req s = some t) : Inv env req t := by
  have hm := h.main
  unfold mainOk at hm
  unfold stepMain at hs
  split at hs
  · -- loopHead
    rename_i i hpc
    rw [hpc] at hm
    split at hs
    · rename_i r hr
      simp only [Option.some.injEq] at hs
      subst hs
      exact inv_frame h rfl rfl rfl rfl rfl rfl (by simp [mainOk, hm, hr]) (by simp [hpc])
        (Or.inl ⟨rfl, rfl⟩)
    · rename_i hr
      simp only [Option.some.injEq] at hs
      subst hs
      refine inv_frame h rfl rfl rfl rfl rfl rfl ?_ (by simp [hpc]) (Or.inl ⟨rfl, rfl⟩)
      simp only [mainOk, exitOk]
      right
      have h1 : req.Calls.length ≤ i := by
        simpa using hr
      have h2 : s.workers.length ≤ req.Calls.length := by
        by_contra hcon
        push_neg at hcon
        have hk : req.Calls.length < s.workers.length := hcon
        have hk2 : s.workers[req.Calls.length]? = some (s.workers[req.Calls.length]) :=
          List.getElem?_eq_getElem hk
        obtain ⟨_, h4, _⟩ := h.rows _ _ hk2
        simp at h4
      omega
  · -- arity
    rename_i i r hpc
    rw [hpc] at hm
    split at hs
    · rename_i hlen
      simp only [Option.some.injEq] at hs
      subst hs
      refine inv_frame h rfl rfl rfl rfl rfl rfl ?_ (by simp [hpc]) (Or.inr ⟨_, ?_, rfl, rfl⟩)
      · simp [mainOk, setErr, hm, arityMsg_ne]
      · exact MsgSource.arity i r (by rw [← hm.1]; exact h.reached (by rw [hm.1]; exact hm.2))
          hlen
    · rename_i hlen
      simp only [Option.some.injEq] at hs
      subst hs
      refine inv_frame h rfl rfl rfl rfl rfl rfl ?_ (by simp [hpc]) (Or.inl ⟨rfl, rfl⟩)
      simp only [mainOk]
      exact ⟨hm.1, hm.2, fun hc => absurd hc hlen⟩
  · -- assert0
    rename_i i r hpc
    rw [hpc] at hm
    split at hs
    · rename_i hr0
      simp only [Option.some.injEq] at hs
      subst hs
      have hnil : r = [] := by
        cases r with
        | nil => rfl
        | cons a l => simp at hr0
      subst hnil
      refine ⟨h.objsLen, ?_, ?_, ?_, ?_, h.errLast, h.errSrc, h.decCalls, h.b64Calls⟩
      · intro k w hk
        obtain ⟨h1, h2, h3⟩ := h.rows k w hk
        exact ⟨h1, h2, pcOk_mono h3 id rfl⟩
      · simp only [mainOk]
        rw [hm.1]; exact hm.2.1
      · intro _
        exact h.body (by simp [hpc])
      · intro _ _
        exact hm.2.2 (by simp)
    · rename_i raw hr0
      simp only [Option.some.injEq] at hs
      subst hs
      refine inv_frame h rfl rfl rfl rfl rfl rfl ?_ (by simp [hpc]) (Or.inl ⟨rfl, rfl⟩)
      simp only [mainOk]
      refine ⟨hm.1, hm.2.1, ?_, ?_⟩
      · intro hn; subst hn; simp at hr0
      · by_cases hlen : r.length = 2
        · exact Or.inl ⟨hlen, hr0⟩
        · exact Or.inr (hm.2.2 hlen)
    · rename_i v hnot hr0
      simp only [Option.some.injEq] at hs
      subst hs
      refine inv_frame h rfl rfl rfl rfl rfl rfl ?_ (by simp [hpc]) (Or.inr ⟨_, ?_, rfl, rfl⟩)
      · simp only [mainOk, setErr]
        refine ⟨hm.1, hm.2.1, ?_, Or.inr cleartextTypeMsg_ne⟩
        intro hn; subst hn; simp at hr0
      · refine MsgSource.cleartext i r v
          (by rw [← hm.1]; exact h.reached (by rw [hm.1]; exact hm.2.1)) hr0 ?_
        intro x hx
        exact hnot x hx
  · -- check0
    rename_i i r raw hpc
    rw [hpc] at hm
    split at hs
    · rename_i herr
      simp only [Option.some.injEq] at hs
      subst hs
      refine inv_frame h rfl rfl rfl rfl rfl rfl ?_ (by simp [hpc]) (Or.inl ⟨rfl, rfl⟩)
      simp only [mainOk]
      exact ⟨herr, r, by rw [hm.1]; exact hm.2.1, hm.2.2.1⟩
    · rename_i herr
      simp only [Option.some.injEq] at hs
      subst hs
      refine inv_frame h rfl rfl rfl rfl rfl rfl ?_ (by simp [hpc]) (Or.inl ⟨rfl, rfl⟩)
      simp only [mainOk]
      rcases hm.2.2.2 with h1 | h1
      · exact ⟨hm.1, hm.2.1, h1.1, h1.2⟩
      · exact absurd h1 herr
  · -- nil0
    rename_i hpc
    rw [hpc] at hm
    simp only [Option.some.injEq] at hs
    subst hs
    refine inv_frame h rfl rfl rfl rfl rfl rfl ?_ (by simp [hpc]) (Or.inl ⟨rfl, rfl⟩)
    simp only [mainOk, exitOk]
    exact Or.inl hm
  · -- assert1
    rename_i i r raw hpc
    rw [hpc] at hm
    obtain ⟨hm1, hm2, hm3, hm4⟩ := hm
    have hr : ∃ v, r = [Value.str raw, v] := by
      match r, hm3, hm4 with
      | [a, b], _, h4 =>
        simp at h4
        exact ⟨b, by rw [h4]⟩
    obtain ⟨v, hv⟩ := hr
    subst hv
    split at hs
    · rename_i hr1
      simp at hr1
    · rename_i aad hr1
      simp only [Option.some.injEq] at hs
      subst hs
      refine inv_frame h rfl rfl rfl rfl rfl rfl ?_ (by simp [hpc]) (Or.inl ⟨rfl, rfl⟩)
      simp only [mainOk]
      simp at hr1
      subst hr1
      exact ⟨hm1, ⟨_, hm2, by simp⟩, Or.inl hm2⟩
    · rename_i v2 hnot hr1
      simp only [Option.some.injEq] at hs
      subst hs
      simp at hr1
      subst hr1
      refine inv_frame h rfl rfl rfl rfl rfl rfl ?_ (by simp [hpc]) (Or.inr ⟨_, ?_, rfl, rfl⟩)
      · simp only [mainOk, setErr]
        exact ⟨hm1, ⟨_, hm2, by simp⟩, Or.inr aadTypeMsg_ne⟩
      · refine MsgSource.aad i _ raw v
          (by rw [← hm1]; exact h.reached (by rw [hm1]; exact hm2)) hm3 hm4 (by simp) ?_
        intro x hx
        exact hnot x (by rw [hx])
  · -- check1
    rename_i i raw aad hpc
    rw [hpc] at hm
    split at hs
    · rename_i herr
      simp only [Option.some.injEq] at hs
      subst hs
      refine inv_frame h rfl rfl rfl rfl rfl rfl ?_ (by simp [hpc]) (Or.inl ⟨rfl, rfl⟩)
      simp only [mainOk]
      refine ⟨herr, ?_⟩
      rw [hm.1]; exact hm.2.1
    · rename_i herr
      simp only [Option.some.injEq] at hs
      subst hs
      refine inv_frame h rfl rfl rfl rfl rfl rfl ?_ (by simp [hpc]) (Or.inl ⟨rfl, rfl⟩)
      simp only [mainOk]
      rcases hm.2.2 with h1 | h1
      · exact ⟨hm.1, h1⟩
      · exact absurd h1 herr
  · -- nil1
    rename_i hpc
    rw [hpc] at hm
    simp only [Option.some.injEq] at hs
    subst hs
    refine inv_frame h rfl rfl rfl rfl rfl rfl ?_ (by simp [hpc]) (Or.inl ⟨rfl, rfl⟩)
    simp only [mainOk, exitOk]
    exact Or.inl hm
  · -- spawn
    rename_i i raw aad hpc
    rw [hpc] at hm
    simp only [Option.some.injEq] at hs
    subst hs
    refine ⟨h.objsLen, ?_, ?_, ?_, ?_, h.errLast, h.errSrc, ?_, ?_⟩
    · intro k w hk
      simp only at hk
      rw [List.getElem?_append] at hk
      split at hk
      · obtain ⟨h1, h2, h3⟩ := h.rows k w hk
        exact ⟨h1, h2, pcOk_mono h3 id rfl⟩
      · rename_i hlt
        have hk0 : k = s.workers.length := by
          by_contra hne
          have : 1 ≤ k - s.workers.length := by omega
          rw [List.getElem?_eq_none (by simpa using this)] at hk
          exact absurd hk (by simp)
        subst hk0
        simp at hk
        subst hk
        exact ⟨hm.1.symm, by rw [hm.1]; exact hm.2, by simp [pcOk]⟩
    · simp [mainOk, hm.1]
    · intro _
      exact h.body (by simp [hpc])
    · intro _ hcan
      exact h.cancel (by simp [hpc]) hcan
    · intro j hj
      obtain ⟨w, hw, hb⟩ := h.decCalls j hj
      refine ⟨w, ?_, hb⟩
      simp only
      rw [List.getElem?_append_left (List.getElem?_eq_some.mp hw).1]
      exact hw
    · intro j hj
      have := h.b64Calls j hj
      simp only [List.length_append, List.length_singleton]
      omega
  · -- wait
    rename_i hpc
    rw [hpc] at hm
    split at hs
    · rename_i hall
      simp only [Option.some.injEq] at hs
      subst hs
      refine inv_frame h rfl rfl rfl rfl rfl rfl ?_ (by simp [hpc]) (Or.inl ⟨rfl, rfl⟩)
      simp only [mainOk]
      refine ⟨hm, ?_⟩
      intro w hw
      have := (List.all_eq_true.mp hall) w hw
      simpa using this
    · exact absurd hs (by simp)
  · -- final
    rename_i hpc
    rw [hpc] at hm
    split at hs
    · rename_i herr
      simp only [Option.some.injEq] at hs
      subst hs
      refine inv_frame h rfl rfl rfl rfl rfl rfl ?_ (by simp [hpc]) (Or.inl ⟨rfl, rfl⟩)
      simp only [mainOk]
      exact ⟨hm.1, hm.2, by simp [herr]⟩
    · rename_i herr
      simp only [Option.some.injEq] at hs
      subst hs
      refine inv_frame h rfl rfl rfl rfl rfl rfl ?_ (by simp [hpc]) (Or.inl ⟨rfl, rfl⟩)
      simp only [mainOk]
      have herr2 : s.ErrorMessage = "" := by
        by_contra hc
        exact herr hc
      exact ⟨hm.1, hm.2, by simp [herr2]⟩
  · -- marshal
    rename_i hpc
    rw [hpc] at hm
    simp only [Option.some.injEq] at hs
    subst hs
    refine ⟨h.objsLen, ?_, ?_, ?_, ?_, h.errLast, h.errSrc, h.decCalls, h.b64Calls⟩
    · intro k w hk
      obtain ⟨h1, h2, h3⟩ := h.rows k w hk
      exact ⟨h1, h2, pcOk_mono h3 id rfl⟩
    · simp only [mainOk]
      exact ⟨hm.1, hm.2.1, hm.2.2, rfl⟩
    · intro hc
      exact absurd rfl hc
    · intro hc
      exact absurd rfl hc
  · exact absurd hs (by simp)
  · exact absurd hs (by simp)

end BqAead

namespace BqAead

/-! ## The row goroutines preserve the invariant -/

/-- The facts about the handler goroutine survive a step of a running row goroutine. -/
theorem mainOk_mono {env : Env} {req : bqRequest} {s t : State} (h : mainOk env req s)
    (hm : t.main = s.main) (hl : t.workers.length = s.workers.length)
    (he : s.ErrorMessage ≠ "" → t.ErrorMessage ≠ "") (hnd : ¬ allDone s) :
    mainOk env req t := by
  cases hpc : s.main <;> simp only [mainOk, hpc, hm, hl, exitOk] at h ⊢
  · exact h
  · exact h
  · exact ⟨h.1, h.2.1, fun hlen => he (h.2.2 hlen)⟩
  · exact ⟨h.1, h.2.1, h.2.2.1, h.2.2.2.imp id he⟩
  · exact ⟨he h.1, h.2⟩
  · exact h
  · exact ⟨h.1, h.2.1, h.2.2.imp id he⟩
  · exact ⟨he h.1, h.2⟩
  · exact h
  · exact h.imp (fun h1 => ⟨he h1.1, h1.2⟩) id
  · exact absurd h.2 hnd
  · exact absurd h.2.1 hnd
  · exact absurd h.2.1 hnd
  · exact h

/-- A step of the running row goroutine at position `k`: its record is replaced by one
for the same row, and the shared state changes in at most the ways listed. -/
theorem inv_worker {env : Env} {req : bqRequest} {s u : State} {k : Nat} {w v : Worker}
    (h : Inv env req s) (hk : s.workers[k]? = some w) (hpc : w.pc ≠ WorkerPc.done)
    (hj : v.j = w.j) (hraw : v.raw = w.raw) (haad : v.aad = w.aad)
    (hmain : u.main = s.main) (hw : u.workers = s.workers) (hb : u.body = s.body)
    (hol : u.objs.length = s.objs.length)
    (hobjs : ∀ i, i ≠ w.j → u.objs[i]? = s.objs[i]?)
    (hcan : u.cancelled = true → s.cancelled = true ∨ u.ErrorMessage ≠ "")
    (herr : (u.ErrorMessage = s.ErrorMessage ∧ u.errLog = s.errLog) ∨
      (∃ m, MsgSource env req m ∧ u.ErrorMessage = m ∧ u.errLog = s.errLog ++ [m]))
    (hdec : ∀ j ∈ u.decryptCalls, j ∈ s.decryptCalls ∨
      (j = w.j ∧ ∃ b, env.b64decode w.raw = some b))
    (hb64 : ∀ j ∈ u.b64Calls, j ∈ s.b64Calls ∨ j = w.j)
    (hok : pcOk env u v) : Inv env req (setWorker k v u) := by
  have hne : s.ErrorMessage ≠ "" → u.ErrorMessage ≠ "" := by
    intro hs
    rcases herr with ⟨h1, _⟩ | ⟨m, hm, h1, _⟩
    · rw [h1]; exact hs
    · rw [h1]; exact hm.ne_empty
  have hklt : k < s.workers.length := (List.getElem?_eq_some.mp hk).1
  have hwj : w.j = k := (h.rows k w hk).1
  have hnd : ¬ allDone s := by
    intro hall
    exact hpc (hall w (List.mem_iff_getElem?.mpr ⟨k, hk⟩))
  have hsnd : s.main ≠ MainPc.done := by
    intro hd
    have := h.main
    simp only [mainOk, hd] at this
    exact hnd this.2.1
  refine ⟨?_, ?_, ?_, ?_, ?_, ?_, ?_, ?_, ?_⟩
  · show u.objs.length = _
    rw [hol]; exact h.objsLen
  · intro i x hi
    have hi2 : (u.workers.set k v)[i]? = some x := hi
    rw [hw, List.getElem?_set] at hi2
    split at hi2
    · rename_i hki
      subst hki
      simp only [hklt, if_true, Option.some.injEq] at hi2
      subst hi2
      obtain ⟨h1, h2, _⟩ := h.rows k w hk
      refine ⟨by rw [hj]; exact h1, by rw [hraw, haad]; exact h2, ?_⟩
      exact pcOk_mono hok (fun hx => hx) rfl
    · rename_i hki
      obtain ⟨h1, h2, h3⟩ := h.rows i x hi2
      refine ⟨h1, h2, pcOk_mono h3 hne ?_⟩
      show u.objs[x.j]? = _
      apply hobjs
      rw [h1, hwj]
      exact fun hc => hki hc.symm
  · exact mainOk_mono h.main hmain (by simp [setWorker, hw]) hne hnd
  · intro _
    show u.body = none
    rw [hb]; exact h.body hsnd
  · intro _ hc
    have hc2 : u.cancelled = true := hc
    show u.ErrorMessage ≠ ""
    rcases hcan hc2 with h1 | h1
    · exact hne (h.cancel hsnd h1)
    · exact h1
  · show u.ErrorMessage = u.errLog.getLast?.getD ""
    rcases herr with ⟨h1, h2⟩ | ⟨m, _, h1, h2⟩
    · rw [h1, h2]; exact h.errLast
    · rw [h1, h2]; simp
  · intro m hm
    have hm2 : m ∈ u.errLog := hm
    rcases herr with ⟨_, h2⟩ | ⟨m0, hm0, _, h2⟩
    · rw [h2] at hm2; exact h.errSrc m hm2
    · rw [h2] at hm2
      rcases List.mem_append.mp hm2 with hm3 | hm3
      · exact h.errSrc m hm3
      · simp at hm3; subst hm3; exact hm0
  · intro j hjm
    have hjm2 : j ∈ u.decryptCalls := hjm
    show ∃ x, (u.workers.set k v)[j]? = some x ∧ _
    rw [hw, List.getElem?_set]
    rcases hdec j hjm2 with h1 | ⟨h1, b, hb1⟩
    · obtain ⟨x, hx, b, hb1⟩ := h.decCalls j h1
      by_cases hkj : k = j
      · subst hkj
        rw [hk] at hx
        simp only [Option.some.injEq] at hx
        subst hx
        exact ⟨v, by simp [hklt], b, by rw [hraw]; exact hb1⟩
      · exact ⟨x, by simp [hkj, hx], b, hb1⟩
    · rw [h1, hwj]
      exact ⟨v, by simp [hklt], b, by rw [hraw]; exact hb1⟩
  · intro j hjm
    have hjm2 : j ∈ u.b64Calls := hjm
    show j < (u.workers.set k v).length
    rw [hw, List.length_set]
    rcases hb64 j hjm2 with h1 | h1
    · exact h.b64Calls j h1
    · rw [h1, hwj]; exact hklt

/-- While a row goroutine is still running the handler has not returned. -/
theorem Inv.not_done {env : Env} {req : bqRequest} {s : State} {k : Nat} {w : Worker}
    (h : Inv env req s) (hk : s.workers[k]? = some w) (hpc : w.pc ≠ WorkerPc.done) :
    s.main ≠ MainPc.done := by
  intro hd
  have := h.main
  simp only [mainOk, hd] at this
  exact hpc (this.2.1 w (List.mem_iff_getElem?.mpr ⟨k, hk⟩))

theorem inv_stepWorker {env : Env} {req : bqRequest} {s t : State} {k : Nat}
    (h : Inv env req s) (hs : stepWorker env k s = some t) : Inv env req t := by
  unfold stepWorker at hs
  split at hs
  · exact absurd hs (by simp)
  · rename_i w hk
    have hrow := (h.rows k w hk).2.2
    have hwj : w.j = k := (h.rows k w hk).1
    have hklt : k < s.workers.length := (List.getElem?_eq_some.mp hk).1
    split at hs
    · -- loop
      rename_i hpc
      have hsnd := h.not_done hk (by simp [hpc])
      simp only [pcOk, hpc] at hrow
      split at hs
      · rename_i hc
        simp only [Option.some.injEq] at hs
        subst hs
        exact inv_worker h hk (by simp [hpc]) rfl rfl rfl rfl rfl rfl rfl (fun _ _ => rfl)
          (fun hc => Or.inl hc) (Or.inl ⟨rfl, rfl⟩) (fun _ hj => Or.inl hj)
          (fun _ hj => Or.inl hj) (by simp [pcOk, hrow, h.cancel hsnd hc])
      · simp only [Option.some.injEq] at hs
        subst hs
        exact inv_worker h hk (by simp [hpc]) rfl rfl rfl rfl rfl rfl rfl (fun _ _ => rfl)
          (fun hc => Or.inl hc) (Or.inl ⟨rfl, rfl⟩) (fun _ hj => Or.inl hj)
          (fun _ hj => Or.inl hj) (by simp [pcOk, hrow])
    · -- decode
      rename_i hpc
      simp only [pcOk, hpc] at hrow
      split at hs
      · rename_i hb
        simp only [Option.some.injEq] at hs
        subst hs
        refine inv_worker h hk (by simp [hpc]) rfl rfl rfl rfl rfl rfl rfl (fun _ _ => rfl)
          (fun hc => Or.inl hc) (Or.inl ⟨rfl, rfl⟩) (fun _ hj => Or.inl hj)
          ?_ (by simp [pcOk, hrow, hb])
        intro j hj
        simpa using hj
      · rename_i b hb
        simp only [Option.some.injEq] at hs
        subst hs
        refine inv_worker h hk (by simp [hpc]) rfl rfl rfl rfl rfl rfl rfl (fun _ _ => rfl)
          (fun hc => Or.inl hc) (Or.inl ⟨rfl, rfl⟩) (fun _ hj => Or.inl hj)
          ?_ (by simp [pcOk, hrow, hb])
        intro j hj
        simpa using hj
    · -- b64Err
      rename_i hpc
      simp only [pcOk, hpc] at hrow
      simp only [Option.some.injEq] at hs
      subst hs
      obtain ⟨_, h2, _⟩ := h.rows k w hk
      refine inv_worker h hk (by simp [hpc]) rfl rfl rfl rfl rfl rfl rfl (fun _ _ => rfl)
        (fun hc => Or.inl hc) (Or.inr ⟨_, ?_, rfl, rfl⟩) (fun _ hj => Or.inl hj)
        (fun _ hj => Or.inl hj) (by simp [pcOk, hrow, setErr, b64Msg_ne])
      rw [hwj]
      exact MsgSource.b64 k w.raw w.aad (h.reached_worker hk) hrow.2
    · -- b64Nil
      rename_i hpc
      simp only [pcOk, hpc] at hrow
      simp only [Option.some.injEq] at hs
      subst hs
      exact inv_worker h hk (by simp [hpc]) rfl rfl rfl rfl rfl rfl rfl (fun _ _ => rfl)
        (fun hc => Or.inl hc) (Or.inl ⟨rfl, rfl⟩) (fun _ hj => Or.inl hj)
        (fun _ hj => Or.inl hj) (by simp only [pcOk]; exact hrow)
    · -- b64Cancel
      rename_i hpc
      simp only [pcOk, hpc] at hrow
      simp only [Option.some.injEq] at hs
      subst hs
      exact inv_worker h hk (by simp [hpc]) rfl rfl rfl rfl rfl rfl rfl (fun _ _ => rfl)
        (fun _ => Or.inr hrow.2.2) (Or.inl ⟨rfl, rfl⟩) (fun _ hj => Or.inl hj)
        (fun _ hj => Or.inl hj) (by simp only [pcOk]; exact ⟨hrow.1, Or.inl hrow.2.2⟩)
    · -- decrypt
      rename_i b hpc
      simp only [pcOk, hpc] at hrow
      split at hs
      · rename_i hd
        simp only [Option.some.injEq] at hs
        subst hs
        refine inv_worker h hk (by simp [hpc]) rfl rfl rfl rfl rfl rfl rfl (fun _ _ => rfl)
          (fun hc => Or.inl hc) (Or.inl ⟨rfl, rfl⟩) ?_
          (fun _ hj => Or.inl hj) (by simp only [pcOk]; exact ⟨hrow.1, b, hrow.2, hd⟩)
        intro j hj
        simp only [List.mem_append, List.mem_singleton] at hj
        exact hj.imp id (fun hj2 => ⟨hj2, b, hrow.2⟩)
      · rename_i ec hd
        simp only [Option.some.injEq] at hs
        subst hs
        refine inv_worker h hk (by simp [hpc]) rfl rfl rfl rfl rfl rfl rfl (fun _ _ => rfl)
          (fun hc => Or.inl hc) (Or.inl ⟨rfl, rfl⟩) ?_
          (fun _ hj => Or.inl hj) (by simp only [pcOk]; exact ⟨hrow.1, b, hrow.2, hd⟩)
        intro j hj
        simp only [List.mem_append, List.mem_singleton] at hj
        exact hj.imp id (fun hj2 => ⟨hj2, b, hrow.2⟩)
    · -- decErr
      rename_i hpc
      simp only [pcOk, hpc] at hrow
      simp only [Option.some.injEq] at hs
      subst hs
      obtain ⟨_, h2, _⟩ := h.rows k w hk
      obtain ⟨hi, b, hb1, hb2⟩ := hrow
      refine inv_worker h hk (by simp [hpc]) rfl rfl rfl rfl rfl rfl rfl (fun _ _ => rfl)
        (fun hc => Or.inl hc) (Or.inr ⟨_, ?_, rfl, rfl⟩) (fun _ hj => Or.inl hj)
        (fun _ hj => Or.inl hj)
        (by simp only [pcOk, setErr]; exact ⟨hi, decryptMsg_ne _, b, hb1, hb2⟩)
      rw [hwj]
      exact MsgSource.decrypt k w.raw w.aad b (h.reached_worker hk) hb1 hb2
    · -- decNil
      rename_i hpc
      simp only [pcOk, hpc] at hrow
      simp only [Option.some.injEq] at hs
      subst hs
      exact inv_worker h hk (by simp [hpc]) rfl rfl rfl rfl rfl rfl rfl (fun _ _ => rfl)
        (fun hc => Or.inl hc) (Or.inl ⟨rfl, rfl⟩) (fun _ hj => Or.inl hj)
        (fun _ hj => Or.inl hj) (by simp only [pcOk]; exact hrow)
    · -- decCancel
      rename_i hpc
      simp only [pcOk, hpc] at hrow
      simp only [Option.some.injEq] at hs
      subst hs
      exact inv_worker h hk (by simp [hpc]) rfl rfl rfl rfl rfl rfl rfl (fun _ _ => rfl)
        (fun _ => Or.inr hrow.2.1) (Or.inl ⟨rfl, rfl⟩) (fun _ hj => Or.inl hj)
        (fun _ hj => Or.inl hj) (by simp only [pcOk]; exact ⟨hrow.1, Or.inl hrow.2.1⟩)
    · -- store
      rename_i ec hpc
      simp only [pcOk, hpc] at hrow
      obtain ⟨hi, b, hb1, hb2⟩ := hrow
      have hjlt : w.j < s.objs.length := by
        rw [h.objsLen, hwj]
        obtain ⟨_, h2, _⟩ := h.rows k w hk
        exact (List.getElem?_eq_some.mp h2).1
      rw [if_pos hjlt] at hs
      simp only [Option.some.injEq] at hs
      subst hs
      refine inv_worker h hk (by simp [hpc]) rfl rfl rfl rfl rfl rfl (by simp) ?_
        (fun hc => Or.inl hc) (Or.inl ⟨rfl, rfl⟩) (fun _ hj => Or.inl hj)
        (fun _ hj => Or.inl hj) ?_
      · intro i hi2
        simp only
        rw [List.getElem?_set_ne (fun hc => hi2 hc.symm)]
      · simp only [pcOk]
        refine ⟨hi, Or.inr ⟨b, ec, hb1, hb2, ?_⟩⟩
        rw [List.getElem?_set_self hjlt]
    · exact absurd hs (by simp)
    · exact absurd hs (by simp)

/-- One step of any goroutine preserves the invariant. -/
theorem inv_step {env : Env} {req : bqRequest} {s t : State} (a : Action)
    (h : Inv env req s) (hs : step env req a s = some t) : Inv env req t := by
  cases a with
  | main => exact inv_stepMain h hs
  | worker k => exact inv_stepWorker h hs

/-- Every state of every interleaving satisfies the invariant. -/
theorem inv_exec {env : Env} {req : bqRequest} (sched : List Action) {s : State}
    (h : Inv env req s) : Inv env req (exec env req sched s) := by
  induction sched generalizing s with
  | nil => exact h
  | cons a rest ih =>
    simp only [exec]
    apply ih
    cases hst : step env req a s with
    | none => exact h
    | some t => exact inv_step a h hst

/-- The invariant holds in every state the handler reaches on a decoded request. -/
theorem inv_reach (env : Env) (req : bqRequest) (sched : List Action) :
    Inv env req (AEAD_DECRYPT env req sched) :=
  inv_exec sched (inv_start env req)

end BqAead

namespace BqAead

/-! ## Termination: every step decreases a measure and a run never gets stuck -/

theorem sum_map_set {α : Type} (f : α → Nat) (l : List α) (k : Nat) (w v : α)
    (hk : l[k]? = some w) : ((l.set k v).map f).sum + f w = (l.map f).sum + f v := by
  induction l generalizing k with
  | nil => simp at hk
  | cons a l ih =>
    cases k with
    | zero =>
      simp at hk
      subst hk
      simp
      omega
    | succ k =>
      simp only [List.getElem?_cons_succ] at hk
      have := ih k hk
      simp only [List.set_cons_succ, List.map_cons, List.sum_cons]
      omega

theorem measure_setWorker (req : bqRequest) (s u : State) (k : Nat) (w v : Worker)
    (hk : s.workers[k]? = some w) (hw : u.workers = s.workers) (hm : u.main = s.main)
    (hr : v.pc.rank < w.pc.rank) : measure req (setWorker k v u) < measure req s := by
  have h1 := sum_map_set (fun x : Worker => x.pc.rank) s.workers k w v hk
  simp only [measure, setWorker, hw, hm]
  simp only at h1
  omega

theorem measure_stepWorker {env : Env} {req : bqRequest} {s t : State} {k : Nat}
    (hs : stepWorker env k s = some t) : measure req t < measure req s := by
  unfold stepWorker at hs
  split at hs
  · exact absurd hs (by simp)
  · rename_i w hk
    split at hs
    all_goals first
      | (split at hs <;>
          (simp only [Option.some.injEq] at hs
           subst hs
           apply measure_setWorker req s _ k w _ hk rfl rfl
           simp_all [WorkerPc.rank]))
      | (simp only [Option.some.injEq] at hs
         subst hs
         apply measure_setWorker req s _ k w _ hk rfl rfl
         simp_all [WorkerPc.rank])
      | exact absurd hs (by simp)

theorem measure_stepMain {env : Env} {req : bqRequest} {s t : State} (h : Inv env req s)
    (hs : stepMain env req s = some t) : measure req t < measure req s := by
  have hm := h.main
  unfold mainOk at hm
  unfold stepMain at hs
  split at hs
  all_goals rename_i hpc
  all_goals rw [hpc] at hm
  all_goals simp only at hm
  · -- loopHead
    split at hs
    · rename_i r hr
      simp only [Option.some.injEq] at hs
      subst hs
      simp [measure, hpc, MainPc.rank]
    · rename_i hr
      simp only [Option.some.injEq] at hs
      subst hs
      simp [measure, hpc, MainPc.rank]
  · -- arity
    split at hs <;>
    · simp only [Option.some.injEq] at hs
      subst hs
      simp [measure, hpc, MainPc.rank, setErr]
  · -- assert0
    split at hs <;>
    · simp only [Option.some.injEq] at hs
      subst hs
      simp [measure, hpc, MainPc.rank, setErr]
  · -- check0
    have hlt := (List.getElem?_eq_some.mp hm.2.1).1
    split at hs <;>
    · simp only [Option.some.injEq] at hs
      subst hs
      simp [measure, hpc, MainPc.rank]
      try omega
  · -- nil0
    simp only [Option.some.injEq] at hs
    subst hs
    simp [measure, hpc, MainPc.rank]
  · -- assert1
    split at hs <;>
    · simp only [Option.some.injEq] at hs
      subst hs
      simp [measure, hpc, MainPc.rank, setErr]
  · -- check1
    obtain ⟨r, hr, _⟩ := hm.2.1
    have hlt := (List.getElem?_eq_some.mp hr).1
    split at hs <;>
    · simp only [Option.some.injEq] at hs
      subst hs
      simp [measure, hpc, MainPc.rank]
      try omega
  · -- nil1
    simp only [Option.some.injEq] at hs
    subst hs
    simp [measure, hpc, MainPc.rank]
  · -- spawn
    have hlt := (List.getElem?_eq_some.mp hm.2).1
    simp only [Option.some.injEq] at hs
    subst hs
    simp [measure, hpc, MainPc.rank, WorkerPc.rank]
    omega
  · -- wait
    split at hs
    · simp only [Option.some.injEq] at hs
      subst hs
      simp [measure, hpc, MainPc.rank]
    · exact absurd hs (by simp)
  · -- final
    split at hs <;>
    · simp only [Option.some.injEq] at hs
      subst hs
      simp [measure, hpc, MainPc.rank]
  · -- marshal
    simp only [Option.some.injEq] at hs
    subst hs
    simp [measure, hpc, MainPc.rank]
  · exact absurd hs (by simp)
  · exact absurd hs (by simp)

/-- Every step that runs decreases the measure. -/
theorem measure_step {env : Env} {req : bqRequest} {s t : State} (a : Action)
    (h : Inv env req s) (hs : step env req a s = some t) :
    measure req t < measure req s := by
  cases a with
  | main => exact measure_stepMain h hs
  | worker k => exact measure_stepWorker hs

/-- A running row goroutine can always take a step. -/
theorem stepWorker_isSome {env : Env} {req : bqRequest} {s : State} {k : Nat} {w : Worker}
    (h : Inv env req s) (hk : s.workers[k]? = some w) (hpc : w.pc ≠ WorkerPc.done) :
    ∃ t, stepWorker env k s = some t := by
  have hrow := (h.rows k w hk).2.2
  unfold stepWorker
  rw [hk]
  simp only
  cases hw : w.pc <;> simp only [hw, pcOk] at hrow hpc ⊢
  all_goals first
    | exact absurd rfl hpc
    | exact hrow.elim
    | (split <;> exact ⟨_, rfl⟩)
    | exact ⟨_, rfl⟩

/-- As long as the handler has neither returned nor panicked, some goroutine can run. -/
theorem progress {env : Env} {req : bqRequest} {s : State} (h : Inv env req s)
    (h1 : s.main ≠ MainPc.done) (h2 : s.main ≠ MainPc.panicked) :
    ∃ a t, step env req a s = some t := by
  by_cases hw : s.main = MainPc.wait
  · by_cases hall : s.workers.all (fun w => decide (w.pc = WorkerPc.done)) = true
    · refine ⟨Action.main, { s with main := MainPc.final }, ?_⟩
      simp only [step, stepMain, hw, hall, if_true]
    · rw [List.all_eq_true] at hall
      push_neg at hall
      obtain ⟨w, hw1, hw2⟩ := hall
      obtain ⟨k, hk⟩ := List.mem_iff_getElem?.mp hw1
      obtain ⟨t, ht⟩ := stepWorker_isSome h hk (by simpa using hw2)
      exact ⟨Action.worker k, t, ht⟩
  · refine ⟨Action.main, ?_⟩
    simp only [step]
    unfold stepMain
    split
    all_goals rename_i hpc
    all_goals first
      | exact absurd hpc hw
      | exact absurd hpc h1
      | exact absurd hpc h2
      | (split <;> exact ⟨_, rfl⟩)
      | exact ⟨_, rfl⟩

theorem exec_append (env : Env) (req : bqRequest) (p q : List Action) (s : State) :
    exec env req (p ++ q) s = exec env req q (exec env req p s) := by
  induction p generalizing s with
  | nil => rfl
  | cons a p ih =>
    show exec env req (p ++ q) ((step env req a s).getD s) = _
    rw [ih]
    rfl

/-- From every state of the invariant some continuation of the schedule lets the handler
return or panic. -/
theorem completion {env : Env} {req : bqRequest} (n : Nat) :
    ∀ s : State, Inv env req s → measure req s ≤ n →
      ∃ rest, (exec env req rest s).main = MainPc.done ∨
        (exec env req rest s).main = MainPc.panicked := by
  induction n with
  | zero =>
    intro s h hn
    by_cases h1 : s.main = MainPc.done
    · exact ⟨[], Or.inl h1⟩
    · by_cases h2 : s.main = MainPc.panicked
      · exact ⟨[], Or.inr h2⟩
      · obtain ⟨a, t, ht⟩ := progress h h1 h2
        have := measure_step a h ht
        omega
  | succ n ih =>
    intro s h hn
    by_cases h1 : s.main = MainPc.done
    · exact ⟨[], Or.inl h1⟩
    · by_cases h2 : s.main = MainPc.panicked
      · exact ⟨[], Or.inr h2⟩
      · obtain ⟨a, t, ht⟩ := progress h h1 h2
        have hlt := measure_step a h ht
        obtain ⟨rest, hrest⟩ := ih t (inv_step a h ht) (by omega)
        refine ⟨a :: rest, ?_⟩
        simp only [exec, ht, Option.getD_some]
        exact hrest

/-- The handler panics only at an empty row that its loop reached. -/
theorem panicked_reached {env : Env} {req : bqRequest} {s : State} (h : Inv env req s)
    (hp : s.main = MainPc.panicked) : Reached req s.workers.length [] := by
  have hm := h.main
  simp only [mainOk, hp] at hm
  exact h.reached hm

/-- When the loop can reach no empty row, every interleaving can be continued until the
handler has written its response. -/
theorem completes (env : Env) (req : bqRequest) (hnp : ∀ i, ¬ Reached req i [])
    (sched : List Action) :
    ∃ rest, (AEAD_DECRYPT env req (sched ++ rest)).main = MainPc.done := by
  have h := inv_reach env req sched
  obtain ⟨rest, hrest⟩ := completion (measure req (AEAD_DECRYPT env req sched)) _ h le_rfl
  refine ⟨rest, ?_⟩
  unfold AEAD_DECRYPT at *
  rw [exec_append]
  rcases hrest with h1 | h1
  · exact h1
  · exact absurd (panicked_reached (inv_exec rest h) h1) (hnp _)

end BqAead

namespace BqAead

/-! ## What the response is when the handler returns -/

theorem isPair_iff (r : List Value) :
    isPair r = true ↔ ∃ raw aad, r = [Value.str raw, Value.str aad] := by
  constructor
  · intro h
    unfold isPair at h
    split at h
    · exact ⟨_, _, rfl⟩
    · exact absurd h (by simp)
  · rintro ⟨raw, aad, rfl⟩
    rfl

theorem rowPlain_eq_some {env : Env} {r : List Value} {p : Bytes}
    (h : rowPlain env r = some p) :
    ∃ raw aad b, r = [Value.str raw, Value.str aad] ∧ env.b64decode raw = some b ∧
      env.decrypt b (toBytes aad) = some p := by
  unfold rowPlain at h
  split at h
  · rename_i raw aad
    cases hb : env.b64decode raw with
    | none => rw [hb] at h; exact absurd h (by simp)
    | some b =>
      rw [hb] at h
      exact ⟨raw, aad, b, rfl, hb, h⟩
  · exact absurd h (by simp)

/-- A recorded message has a source. -/
theorem err_source {env : Env} {req : bqRequest} {s : State} (h : Inv env req s)
    (hne : s.ErrorMessage ≠ "") : MsgSource env req s.ErrorMessage := by
  have h1 := h.errLast
  cases hl : s.errLog.getLast? with
  | none =>
    rw [hl] at h1
    exact absurd h1 hne
  | some m =>
    rw [hl] at h1
    simp only [Option.getD_some] at h1
    rw [h1]
    exact h.errSrc m (List.mem_of_getLast?_eq_some hl)

/-- No goroutine is started for a row that is not a pair of strings, nor for a later one. -/
theorem workers_le_of_bad {env : Env} {req : bqRequest} {s : State} (h : Inv env req s)
    {k : Nat} {r : List Value} (hk : req.Calls[k]? = some r) (hbad : isPair r = false) :
    s.workers.length ≤ k := by
  by_contra hcon
  push_neg at hcon
  have hk2 : s.workers[k]? = some (s.workers[k]) := List.getElem?_eq_getElem hcon
  obtain ⟨_, h2, _⟩ := h.rows k _ hk2
  rw [hk] at h2
  simp only [Option.some.injEq] at h2
  rw [h2] at hbad
  simp [isPair] at hbad

/-- A row the loop reached lies at or before the first row that is not a pair of strings. -/
theorem Reached.le_of_bad {req : bqRequest} {i k : Nat} {r x : List Value}
    (hi : Reached req i x) (hk : req.Calls[k]? = some r) (hbad : isPair r = false) :
    i ≤ k := by
  by_contra hcon
  push_neg at hcon
  obtain ⟨raw, aad, h2⟩ := hi.2 k hcon
  rw [hk] at h2
  simp only [Option.some.injEq] at h2
  rw [h2] at hbad
  simp [isPair] at hbad

/-- The state in which the handler has returned. -/
theorem done_facts {env : Env} {req : bqRequest} {s : State} (h : Inv env req s)
    (hd : s.main = MainPc.done) :
    s.body = some (marshal env s.bqResp) ∧
    ((s.ErrorMessage ≠ "" ∧ s.Replies = none) ∨
      (s.ErrorMessage = "" ∧ s.Replies = some s.objs ∧
        s.workers.length = req.Calls.length ∧
        ∀ (k : Nat) (r : List Value), req.Calls[k]? = some r →
          ∃ p, rowPlain env r = some p ∧ s.objs[k]? = some (ofBytes p))) := by
  have hm := h.main
  simp only [mainOk, hd] at hm
  obtain ⟨hexit, hall, hrep, hbody⟩ := hm
  refine ⟨hbody, ?_⟩
  by_cases herr : s.ErrorMessage = ""
  · right
    rw [if_pos herr] at hrep
    have hlen : s.workers.length = req.Calls.length := by
      rcases hexit with h1 | h1
      · exact absurd herr h1.1
      · exact h1
    refine ⟨herr, hrep, hlen, ?_⟩
    intro k r hk
    have hklt : k < s.workers.length := by
      rw [hlen]; exact (List.getElem?_eq_some.mp hk).1
    have hk2 : s.workers[k]? = some (s.workers[k]) := List.getElem?_eq_getElem hklt
    obtain ⟨h1, h2, h3⟩ := h.rows k _ hk2
    have hdone := hall _ (List.mem_iff_getElem?.mpr ⟨k, hk2⟩)
    simp only [pcOk, hdone] at h3
    rcases h3.2 with h4 | ⟨b, ec, hb, hdec, hobj⟩
    · exact absurd herr h4
    · refine ⟨ec, ?_, by rw [← h1]; exact hobj⟩
      rw [hk] at h2
      simp only [Option.some.injEq] at h2
      rw [h2]
      simp [rowPlain, hb, hdec]
  · left
    rw [if_neg herr] at hrep
    exact ⟨herr, hrep⟩

/-- The body of a response that carries only an error message. -/
theorem marshal_error (env : Env) (r : bqResponse) (h1 : r.Replies = none)
    (h2 : r.ErrorMessage ≠ "") :
    marshal env r = "\x7b" ++ ("\"errorMessage\":" ++ env.quote r.ErrorMessage) ++ "\x7d" := by
  simp [marshal, h1, h2, joinComma]

/-- When every row decodes and decrypts, no failure message has a source. -/
theorem no_source_of_all_ok {env : Env} {req : bqRequest}
    (hok : ∀ (k : Nat) (r : List Value), req.Calls[k]? = some r →
      ∃ p, rowPlain env r = some p) (m : GoString) :
    ¬ MsgSource env req m := by
  intro hm
  cases hm with
  | arity i r hr hlen =>
    obtain ⟨p, hp⟩ := hok i r hr.1
    obtain ⟨raw, aad, b, rfl, _, _⟩ := rowPlain_eq_some hp
    exact hlen rfl
  | cleartext i r v hr h0 hv =>
    obtain ⟨p, hp⟩ := hok i r hr.1
    obtain ⟨raw, aad, b, rfl, _, _⟩ := rowPlain_eq_some hp
    simp at h0
    exact hv raw h0.symm
  | aad i r raw v hr hlen h0 h1 hv =>
    obtain ⟨p, hp⟩ := hok i r hr.1
    obtain ⟨raw2, aad, b, rfl, _, _⟩ := rowPlain_eq_some hp
    simp at h1
    exact hv aad h1.symm
  | b64 k raw aad hr hb =>
    obtain ⟨p, hp⟩ := hok k _ hr.1
    simp [rowPlain, hb] at hp
  | decrypt k raw aad b hr hb hd =>
    obtain ⟨p, hp⟩ := hok k _ hr.1
    simp [rowPlain, hb, hd] at hp

/-- In a request of pairs of strings a message can only come from a failing row. -/
theorem source_of_pairs {env : Env} {req : bqRequest}
    (hwf : ∀ r ∈ req.Calls, isPair r = true) {m : GoString} (hm : MsgSource env req m) :
    ∃ k raw aad, req.Calls[k]? = some [Value.str raw, Value.str aad] ∧
      ((env.b64decode raw = none ∧ m = b64Msg k) ∨
        (∃ b, env.b64decode raw = some b ∧ env.decrypt b (toBytes aad) = none ∧
          m = decryptMsg k)) := by
  have hpair : ∀ (i : Nat) (r : List Value), req.Calls[i]? = some r →
      ∃ raw aad, r = [Value.str raw, Value.str aad] :=
    fun i r hr => (isPair_iff r).mp (hwf r (List.mem_iff_getElem?.mpr ⟨i, hr⟩))
  cases hm with
  | arity i r hr hlen =>
    obtain ⟨raw, aad, rfl⟩ := hpair i r hr.1
    exact absurd rfl hlen
  | cleartext i r v hr h0 hv =>
    obtain ⟨raw, aad, rfl⟩ := hpair i r hr.1
    simp at h0
    exact absurd h0.symm (hv raw)
  | aad i r raw v hr hlen h0 h1 hv =>
    obtain ⟨raw2, aad, rfl⟩ := hpair i r hr.1
    simp at h1
    exact absurd h1.symm (hv aad)
  | b64 k raw aad hr hb => exact ⟨k, raw, aad, hr.1, Or.inl ⟨hb, rfl⟩⟩
  | decrypt k raw aad b hr hb hd => exact ⟨k, raw, aad, hr.1, Or.inr ⟨b, hb, hd, rfl⟩⟩

/-- In a request of pairs of strings the loop reaches no empty row. -/
theorem no_empty_of_pairs {req : bqRequest} (hwf : ∀ r ∈ req.Calls, isPair r = true)
    (i : Nat) : ¬ Reached req i [] := by
  intro h
  have := hwf [] (List.mem_iff_getElem?.mpr ⟨i, h.1⟩)
  simp [isPair] at this

theorem rows_of_map {env : Env} {req : bqRequest} {ps : List Bytes}
    (hrows : req.Calls.map (rowPlain env) = ps.map some) (k : Nat) (r : List Value)
    (hk : req.Calls[k]? = some r) : ∃ p, ps[k]? = some p ∧ rowPlain env r = some p := by
  have h1 := congrArg (fun l => l[k]?) hrows
  simp only [List.getElem?_map, hk, Option.map_some'] at h1
  cases hp : ps[k]? with
  | none => rw [hp] at h1; simp at h1
  | some p =>
    rw [hp] at h1
    simp only [Option.map_some', Option.some.injEq] at h1
    exact ⟨p, rfl, h1⟩

theorem pairs_of_map {env : Env} {req : bqRequest} {ps : List Bytes}
    (hrows : req.Calls.map (rowPlain env) = ps.map some) :
    ∀ r ∈ req.Calls, isPair r = true := by
  intro r hr
  obtain ⟨k, hk⟩ := List.mem_iff_getElem?.mp hr
  obtain ⟨p, _, hp⟩ := rows_of_map hrows k r hk
  obtain ⟨raw, aad, b, rfl, _, _⟩ := rowPlain_eq_some hp
  rfl

/-- When every row decodes and decrypts, the handler returns the plaintexts in the order
of the rows, in every interleaving. -/
theorem replies_of_all_ok {env : Env} {req : bqRequest} {ps : List Bytes}
    (hrows : req.Calls.map (rowPlain env) = ps.map some) (sched : List Action) :
    (AEAD_DECRYPT env req sched).ErrorMessage = "" ∧
    ((AEAD_DECRYPT env req sched).main = MainPc.done →
      (AEAD_DECRYPT env req sched).Replies = some (ps.map ofBytes)) := by
  have h := inv_reach env req sched
  have hok : ∀ (k : Nat) (r : List Value), req.Calls[k]? = some r →
      ∃ p, rowPlain env r = some p :=
    fun k r hk => (rows_of_map hrows k r hk).imp (fun p hp => hp.2)
  have herr : (AEAD_DECRYPT env req sched).ErrorMessage = "" := by
    by_contra hne
    exact no_source_of_all_ok hok _ (err_source h hne)
  refine ⟨herr, ?_⟩
  intro hd
  rcases (done_facts h hd).2 with ⟨h1, _⟩ | ⟨_, hrep, _, hobjs⟩
  · exact absurd herr h1
  · rw [hrep]
    congr 1
    apply List.ext_getElem?
    intro n
    have hlen : ps.length = req.Calls.length := by
      have := congrArg List.length hrows
      simpa using this.symm
    by_cases hn : n < req.Calls.length
    · have hk : req.Calls[n]? = some (req.Calls[n]) := List.getElem?_eq_getElem hn
      obtain ⟨p, hp1, hp2⟩ := rows_of_map hrows n _ hk
      obtain ⟨q, hq1, hq2⟩ := hobjs n _ hk
      rw [hq1] at hp2
      simp only [Option.some.injEq] at hp2
      rw [hq2, List.getElem?_map, hp1, hp2]
      rfl
    · rw [List.getElem?_eq_none (by rw [h.objsLen]; omega),
        List.getElem?_eq_none (by simp; omega)]

/-- The statement shared by the batches in which every row succeeds. -/
theorem order_preservation_aux (env : Env) (req : bqRequest) (ps : List Bytes)
    (hrows : req.Calls.map (rowPlain env) = ps.map some) :
    (ps.map ofBytes).length = req.Calls.length ∧
    (∀ sched, (AEAD_DECRYPT env req sched).main = MainPc.done →
      (AEAD_DECRYPT env req sched).ErrorMessage = "" ∧
      (AEAD_DECRYPT env req sched).Replies = some (ps.map ofBytes)) ∧
    (∀ sched, ∃ rest, (AEAD_DECRYPT env req (sched ++ rest)).main = MainPc.done) := by
  refine ⟨?_, ?_, ?_⟩
  · have := congrArg List.length hrows
    simpa using this.symm
  · intro sched hd
    exact ⟨(replies_of_all_ok hrows sched).1, (replies_of_all_ok hrows sched).2 hd⟩
  · intro sched
    exact completes env req (no_empty_of_pairs (pairs_of_map hrows)) sched

/-- In a request of pairs of strings with a failing row, the handler returns with a
recorded message and no replies. -/
theorem failure_aux {env : Env} {req : bqRequest}
    (hfail : ∃ r ∈ req.Calls, rowPlain env r = none) (sched : List Action)
    (hd : (AEAD_DECRYPT env req sched).main = MainPc.done) :
    (AEAD_DECRYPT env req sched).ErrorMessage ≠ "" ∧
    (AEAD_DECRYPT env req sched).Replies = none ∧
    (AEAD_DECRYPT env req sched).body = some ("\x7b" ++
      ("\"errorMessage\":" ++ env.quote (AEAD_DECRYPT env req sched).ErrorMessage) ++
      "\x7d") := by
  have h := inv_reach env req sched
  obtain ⟨hbody, hcase⟩ := done_facts h hd
  rcases hcase with ⟨h1, h2⟩ | ⟨_, _, _, hobjs⟩
  · refine ⟨h1, h2, ?_⟩
    rw [hbody, marshal_error env _ h2 h1]
    rfl
  · obtain ⟨r, hr, hnone⟩ := hfail
    obtain ⟨k, hk⟩ := List.mem_iff_getElem?.mp hr
    obtain ⟨p, hp, _⟩ := hobjs k r hk
    rw [hnone] at hp
    exact absurd hp (by simp)

end BqAead

namespace BqAead

/-! ## The sample environment -/

theorem sample_decode_encode (b : Bytes) : sampleDecode (sampleEncode b) = some b := rfl

theorem sample_decrypt_encrypt (p aad : Bytes) :
    sampleDecrypt (sampleEncrypt p aad) aad = some p := by
  simp [sampleDecrypt, sampleEncrypt]

/-! ## Batches of well-formed rows -/

/-- C1 (order preservation).  Let every call entry be a pair of strings whose first field is
valid base64 and whose decoded ciphertext decrypts, under the bytes of the second field, to
the plaintext `ps[i]` (`hrows`).  Then the replies have the length of `calls`; in every
interleaving in which the handler returns, `errorMessage` is empty and `replies` is exactly
`string(ps[0]), string(ps[1]), ...` in the order of the rows; and every interleaving can be
continued until the handler returns. -/
theorem order_preservation (env : Env) (req : bqRequest) (ps : List Bytes)
    (hrows : req.Calls.map (rowPlain env) = ps.map some) :
    (ps.map ofBytes).length = req.Calls.length ∧
    (∀ sched, (AEAD_DECRYPT env req sched).main = MainPc.done →
      (AEAD_DECRYPT env req sched).ErrorMessage = "" ∧
      (AEAD_DECRYPT env req sched).Replies = some (ps.map ofBytes)) ∧
    (∀ sched, ∃ rest, (AEAD_DECRYPT env req (sched ++ rest)).main = MainPc.done) :=
  order_preservation_aux env req ps hrows

set_option maxRecDepth 100000 in
/-- C1 at a concrete request: row 1 finishes before row 0 and the replies are still in the
order of the rows. -/
theorem order_preservation_witness :
    (mkReq [[Value.str "bkfoo", Value.str "k"], [Value.str "bbar", Value.str ""]]).Calls.map
        (rowPlain sampleEnv) = ["foo", "bar"].map some ∧
    (AEAD_DECRYPT sampleEnv
        (mkReq [[Value.str "bkfoo", Value.str "k"], [Value.str "bbar", Value.str ""]])
        (mainSteps 7 ++ workerSteps 0 2 ++ mainSteps 7 ++ workerSteps 1 4 ++ workerSteps 0 2 ++
          mainSteps 4)).Replies = some ["foo", "bar"] :=
  ⟨by decide,
   ((order_preservation sampleEnv
      (mkReq [[Value.str "bkfoo", Value.str "k"], [Value.str "bbar", Value.str ""]])
      ["foo", "bar"] (by decide)).2.1 _ (by decide)).2⟩

/-- C2 (all-or-nothing failure).  Let every call entry be a pair of strings (`hwf`) and let
at least one row fail: its first field is not valid base64 or its ciphertext is rejected
(`hfail`).  Then in every interleaving in which the handler returns, `errorMessage` is not
empty, `Replies` is `nil`, and the body is the JSON object with the single member
`errorMessage`, whatever the other rows have written into `objs`; and every interleaving
can be continued until the handler returns. -/
theorem all_or_nothing_failure (env : Env) (req : bqRequest)
    (hwf : ∀ r ∈ req.Calls, isPair r = true)
    (hfail : ∃ r ∈ req.Calls, rowPlain env r = none) :
    (∀ sched, (AEAD_DECRYPT env req sched).main = MainPc.done →
      (AEAD_DECRYPT env req sched).ErrorMessage ≠ "" ∧
      (AEAD_DECRYPT env req sched).Replies = none ∧
      (AEAD_DECRYPT env req sched).body = some ("\x7b" ++
        ("\"errorMessage\":" ++ env.quote (AEAD_DECRYPT env req sched).ErrorMessage) ++
        "\x7d")) ∧
    (∀ sched, ∃ rest, (AEAD_DECRYPT env req (sched ++ rest)).main = MainPc.done) := by
  exact ⟨fun sched hd => failure_aux hfail sched hd,
    fun sched => completes env req (no_empty_of_pairs hwf) sched⟩

set_option maxRecDepth 100000 in
/-- C2 at a concrete request: row 0 has stored its plaintext in `objs` before row 1 fails,
and the response carries the error message only. -/
theorem all_or_nothing_failure_witness :
    (∀ r ∈ (mkReq [[Value.str "bkfoo", Value.str "k"], [Value.str "x", Value.str ""]]).Calls,
      isPair r = true) ∧
    (AEAD_DECRYPT sampleEnv
        (mkReq [[Value.str "bkfoo", Value.str "k"], [Value.str "x", Value.str ""]])
        (mainSteps 14 ++ workerSteps 1 2 ++ workerSteps 0 4 ++ workerSteps 1 3 ++
          mainSteps 4)).objs = ["foo", ""] ∧
    (AEAD_DECRYPT sampleEnv
        (mkReq [[Value.str "bkfoo", Value.str "k"], [Value.str "x", Value.str ""]])
        (mainSteps 14 ++ workerSteps 1 2 ++ workerSteps 0 4 ++ workerSteps 1 3 ++
          mainSteps 4)).Replies = none :=
  ⟨by decide, by decide,
   ((all_or_nothing_failure sampleEnv
      (mkReq [[Value.str "bkfoo", Value.str "k"], [Value.str "x", Value.str ""]])
      (by decide) ⟨[Value.str "x", Value.str ""], by decide, by decide⟩).1 _
      (by decide)).2.1⟩

/-- C7 (the surfaced failure message is a real one).  Let every call entry be a pair of
strings and let at least one row fail.  Then in every interleaving in which the handler
returns, `errorMessage` is not empty and is `"Error b64decoding row k"` for a row `k` whose
first field is not valid base64, or `"Error decrypting row k"` for a row `k` whose
ciphertext decodes and is rejected by the AEAD: it is built from the row number alone, no
plaintext enters it.  When `k` is the only failing row the message names `k` and its kind
of failure.  In every state of every interleaving `a.Decrypt` has been called only for
rows whose first field decodes.  Every interleaving can be continued until the handler
returns. -/
theorem failure_message_is_real (env : Env) (req : bqRequest)
    (hwf : ∀ r ∈ req.Calls, isPair r = true)
    (hfail : ∃ r ∈ req.Calls, rowPlain env r = none) :
    (∀ sched, (AEAD_DECRYPT env req sched).main = MainPc.done →
      (AEAD_DECRYPT env req sched).ErrorMessage ≠ "" ∧
      ∃ k raw aad, req.Calls[k]? = some [Value.str raw, Value.str aad] ∧
        ((env.b64decode raw = none ∧
            (AEAD_DECRYPT env req sched).ErrorMessage = b64Msg k) ∨
          (∃ b, env.b64decode raw = some b ∧ env.decrypt b (toBytes aad) = none ∧
            (AEAD_DECRYPT env req sched).ErrorMessage = decryptMsg k))) ∧
    (∀ sched (k : Nat) (raw aad : GoString),
      req.Calls[k]? = some [Value.str raw, Value.str aad] →
      (∀ (i : Nat) (r : List Value), req.Calls[i]? = some r → rowPlain env r = none → i = k) →
      (AEAD_DECRYPT env req sched).main = MainPc.done →
      (AEAD_DECRYPT env req sched).ErrorMessage =
        (if env.b64decode raw = none then b64Msg k else decryptMsg k)) ∧
    (∀ sched, ∀ j ∈ (AEAD_DECRYPT env req sched).decryptCalls,
      ∃ raw aad b, req.Calls[j]? = some [Value.str raw, Value.str aad] ∧
        env.b64decode raw = some b) ∧
    (∀ sched, ∃ rest, (AEAD_DECRYPT env req (sched ++ rest)).main = MainPc.done) := by
  have hmsg : ∀ sched, (AEAD_DECRYPT env req sched).main = MainPc.done →
      (AEAD_DECRYPT env req sched).ErrorMessage ≠ "" ∧
      ∃ k raw aad, req.Calls[k]? = some [Value.str raw, Value.str aad] ∧
        ((env.b64decode raw = none ∧
            (AEAD_DECRYPT env req sched).ErrorMessage = b64Msg k) ∨
          (∃ b, env.b64decode raw = some b ∧ env.decrypt b (toBytes aad) = none ∧
            (AEAD_DECRYPT env req sched).ErrorMessage = decryptMsg k)) := by
    intro sched hd
    have hne := (failure_aux hfail sched hd).1
    exact ⟨hne, source_of_pairs hwf (err_source (inv_reach env req sched) hne)⟩
  refine ⟨hmsg, ?_, ?_, fun sched => completes env req (no_empty_of_pairs hwf) sched⟩
  · intro sched k raw aad hk huniq hd
    obtain ⟨_, i, raw2, aad2, hi, hcase⟩ := hmsg sched hd
    have hik : i = k := by
      apply huniq i _ hi
      rcases hcase with ⟨hb, _⟩ | ⟨b, hb, hdec, _⟩
      · simp [rowPlain, hb]
      · simp [rowPlain, hb, hdec]
    subst hik
    rw [hk] at hi
    simp only [Option.some.injEq, List.cons.injEq, Value.str.injEq, and_true] at hi
    obtain ⟨h1, h2⟩ := hi
    subst h1
    subst h2
    rcases hcase with ⟨hb, hm⟩ | ⟨b, hb, _, hm⟩
    · rw [if_pos hb]; exact hm
    · rw [if_neg (by rw [hb]; simp)]; exact hm
  · intro sched j hj
    have h := inv_reach env req sched
    obtain ⟨w, hw, b, hb⟩ := h.decCalls j hj
    exact ⟨w.raw, w.aad, b, (h.rows j w hw).2.1, hb⟩

set_option maxRecDepth 100000 in
/-- C7 at a concrete request in which row 1 is the only failing row. -/
theorem failure_message_is_real_witness :
    (∀ r ∈ (mkReq [[Value.str "bkfoo", Value.str "k"], [Value.str "x", Value.str ""]]).Calls,
      isPair r = true) ∧
    (AEAD_DECRYPT sampleEnv
        (mkReq [[Value.str "bkfoo", Value.str "k"], [Value.str "x", Value.str ""]])
        (mainSteps 14 ++ workerSteps 1 2 ++ workerSteps 0 4 ++ workerSteps 1 3 ++
          mainSteps 4)).ErrorMessage = "Error b64decoding row 1" :=
  ⟨by decide,
   (failure_message_is_real sampleEnv
      (mkReq [[Value.str "bkfoo", Value.str "k"], [Value.str "x", Value.str ""]])
      (by decide) ⟨[Value.str "x", Value.str ""], by decide, by decide⟩).2.1 _ 1 "x" ""
      (by decide)
      (by
        intro i r hi hnone
        match i, hi with
        | 0, hi =>
          simp [mkReq] at hi
          subst hi
          exact absurd hnone (by decide)
        | 1, _ => rfl
        | (n + 2), hi => simp [mkReq] at hi)
      (by decide)⟩

end BqAead

namespace BqAead

/-! ## The empty batch and the round trip -/

/-- C3, as the code behaves: for a request whose `calls` array is empty no row goroutine is
started, nothing is decoded or decrypted, and when the handler returns `errorMessage` is
empty, `Replies` is the empty non-nil slice, and the body is the empty JSON object because
`replies` carries `omitempty`; four steps of the handler goroutine reach the return. -/
theorem empty_batch (env : Env) (req : bqRequest) (hempty : req.Calls = []) :
    (∀ sched, (AEAD_DECRYPT env req sched).workers = [] ∧
      (AEAD_DECRYPT env req sched).b64Calls = [] ∧
      (AEAD_DECRYPT env req sched).decryptCalls = [] ∧
      ((AEAD_DECRYPT env req sched).main = MainPc.done →
        (AEAD_DECRYPT env req sched).ErrorMessage = "" ∧
        (AEAD_DECRYPT env req sched).Replies = some [] ∧
        (AEAD_DECRYPT env req sched).body = some "\x7b\x7d")) ∧
    (AEAD_DECRYPT env req (mainSteps 4)).main = MainPc.done := by
  constructor
  · intro sched
    have h := inv_reach env req sched
    have hw : (AEAD_DECRYPT env req sched).workers = [] := by
      cases hl : (AEAD_DECRYPT env req sched).workers with
      | nil => rfl
      | cons w l =>
        have hk : (AEAD_DECRYPT env req sched).workers[0]? = some w := by rw [hl]; simp
        have := (h.rows 0 w hk).2.1
        rw [hempty] at this
        simp at this
    refine ⟨hw, ?_, ?_, ?_⟩
    · cases hl : (AEAD_DECRYPT env req sched).b64Calls with
      | nil => rfl
      | cons j l =>
        have := h.b64Calls j (by rw [hl]; simp)
        rw [hw] at this
        simp at this
    · cases hl : (AEAD_DECRYPT env req sched).decryptCalls with
      | nil => rfl
      | cons j l =>
        obtain ⟨w, hw2, _⟩ := h.decCalls j (by rw [hl]; simp)
        rw [hw] at hw2
        simp at hw2
    · intro hd
      have hrows : req.Calls.map (rowPlain env) = ([] : List Bytes).map some := by
        rw [hempty]; rfl
      obtain ⟨herr, hrep⟩ := replies_of_all_ok hrows sched
      have hrep2 := hrep hd
      refine ⟨herr, hrep2, ?_⟩
      rw [(done_facts h hd).1]
      simp only [State.bqResp, marshal, herr, hrep2]
      rfl
  · simp [AEAD_DECRYPT, mainSteps, List.replicate, exec, step, stepMain, start, hempty]

/-- C3 at a concrete empty request. -/
theorem empty_batch_witness :
    (mkReq []).Calls = [] ∧
    (AEAD_DECRYPT sampleEnv (mkReq []) (mainSteps 4)).body = some "\x7b\x7d" :=
  ⟨rfl, ((empty_batch sampleEnv (mkReq []) rfl).1 (mainSteps 4)).2.2.2 (by decide) |>.2.2⟩

/-- C3, as the claim states it, fails: on the empty request the handler returns and the
body is not the JSON object with an empty `replies` array. -/
theorem empty_batch_not_replies :
    (AEAD_DECRYPT sampleEnv (mkReq []) (mainSteps 4)).main = MainPc.done ∧
    (AEAD_DECRYPT sampleEnv (mkReq []) (mainSteps 4)).body = some "\x7b\x7d" ∧
    (AEAD_DECRYPT sampleEnv (mkReq []) (mainSteps 4)).body ≠ some "\x7b\"replies\":[]\x7d" ∧
    (AEAD_DECRYPT sampleEnv (mkReq []) (mainSteps 4)).body ≠
      some "\x7b\"replies\": []\x7d" := by
  decide

theorem rowPlain_roundTrip (env : Env) (encode : Bytes → GoString)
    (encrypt : Bytes → Bytes → Bytes)
    (hb64 : ∀ b, env.b64decode (encode b) = some b)
    (haead : ∀ p aad, env.decrypt (encrypt p aad) aad = some p)
    (rows : List (Bytes × GoString)) :
    (roundTripCalls encode encrypt rows).map (rowPlain env) =
      (rows.map (fun x => x.1)).map some := by
  induction rows with
  | nil => rfl
  | cons x rows ih =>
    simp only [roundTripCalls, List.map_cons, List.map_map] at ih ⊢
    rw [ih]
    simp [rowPlain, hb64, haead]

/-- C8 (round trip through the service).  Let base64 decoding undo the encoding (`hb64`)
and let the AEAD decrypt what it encrypted under the same associated data (`haead`).  For
every list of plaintexts with associated data, empty ones included, the request whose call
`i` is `[base64(encrypt(p_i, aad_i)), aad_i]` makes the handler return, in every
interleaving, an empty `errorMessage` and the replies `string(p_0), string(p_1), ...`; every
interleaving can be continued until the handler returns; and the check of
`keysets/main.go` logs the plaintext `foo` it started from. -/
theorem round_trip (env : Env) (encode : Bytes → GoString) (encrypt : Bytes → Bytes → Bytes)
    (hb64 : ∀ b, env.b64decode (encode b) = some b)
    (haead : ∀ p aad, env.decrypt (encrypt p aad) aad = some p)
    (req : bqRequest) (rows : List (Bytes × GoString))
    (hreq : req.Calls = roundTripCalls encode encrypt rows) :
    (∀ sched, (AEAD_DECRYPT env req sched).main = MainPc.done →
      (AEAD_DECRYPT env req sched).ErrorMessage = "" ∧
      (AEAD_DECRYPT env req sched).Replies = some (rows.map (fun x => ofBytes x.1))) ∧
    (∀ sched, ∃ rest, (AEAD_DECRYPT env req (sched ++ rest)).main = MainPc.done) ∧
    keysetsMain ⟨fun p aad => some (encrypt p aad), env.decrypt⟩
        ⟨fun p aad => some (encrypt p aad), env.decrypt⟩ encode =
      some ["Encrypted Data: " ++ encode (encrypt (toBytes "foo") (toBytes "")),
        "Plain text: foo\n"] := by
  have hrows : req.Calls.map (rowPlain env) = (rows.map (fun x => x.1)).map some := by
    rw [hreq]; exact rowPlain_roundTrip env encode encrypt hb64 haead rows
  obtain ⟨_, h2, h3⟩ := order_preservation_aux env req _ hrows
  refine ⟨?_, h3, ?_⟩
  · intro sched hd
    obtain ⟨h4, h5⟩ := h2 sched hd
    refine ⟨h4, ?_⟩
    rw [h5, List.map_map]
    rfl
  · simp only [keysetsMain, haead]
    rfl

set_option maxRecDepth 100000 in
/-- C8 at concrete rows, among them an empty plaintext and empty associated data. -/
theorem round_trip_witness :
    (∀ b, sampleEnv.b64decode (sampleEncode b) = some b) ∧
    (∀ p aad, sampleEnv.decrypt (sampleEncrypt p aad) aad = some p) ∧
    (AEAD_DECRYPT sampleEnv
        (mkReq (roundTripCalls sampleEncode sampleEncrypt [("foo", ""), ("", "ctx"), ("", "")]))
        (mainSteps 21 ++ workerSteps 2 4 ++ workerSteps 0 4 ++ workerSteps 1 4 ++
          mainSteps 4)).Replies = some ["foo", "", ""] :=
  ⟨sample_decode_encode, sample_decrypt_encrypt,
   ((round_trip sampleEnv sampleEncode sampleEncrypt sample_decode_encode
      sample_decrypt_encrypt
      (mkReq (roundTripCalls sampleEncode sampleEncrypt [("foo", ""), ("", "ctx"), ("", "")]))
      [("foo", ""), ("", "ctx"), ("", "")] rfl).1 _ (by decide)).2⟩

end BqAead

namespace BqAead

/-! ## Requests with a malformed call entry -/

/-- The first row that is not a pair of strings is unique. -/
theorem reached_unique {req : bqRequest} {i k : Nat} {x r : List Value}
    (hi : Reached req i x) (hx : isPair x = false) (hk : Reached req k r)
    (hr : isPair r = false) : i = k ∧ x = r := by
  have h1 : i ≤ k := hi.le_of_bad hk.1 hr
  have h2 : k ≤ i := hk.le_of_bad hi.1 hx
  have h3 : i = k := le_antisymm h1 h2
  subst h3
  have := hi.1
  rw [hk.1] at this
  simp only [Option.some.injEq] at this
  exact ⟨rfl, this.symm⟩

/-- A request with a row that is not a pair of strings has a first such row. -/
theorem exists_first_bad {req : bqRequest} (h : ∃ r ∈ req.Calls, isPair r = false) :
    ∃ k r, Reached req k r ∧ isPair r = false := by
  classical
  have hex : ∃ k : Nat, ∃ r : List Value, req.Calls[k]? = some r ∧ isPair r = false := by
    obtain ⟨r, hr, hbad⟩ := h
    obtain ⟨k, hk⟩ := List.mem_iff_getElem?.mp hr
    exact ⟨k, r, hk, hbad⟩
  obtain ⟨r, hr, hbad⟩ := Nat.find_spec hex
  refine ⟨Nat.find hex, r, ⟨hr, ?_⟩, hbad⟩
  intro i hi
  have hmin := Nat.find_min hex hi
  have hlt : i < req.Calls.length := by
    have := (List.getElem?_eq_some.mp hr).1
    omega
  have hget : req.Calls[i]? = some (req.Calls[i]) := List.getElem?_eq_getElem hlt
  have hp : isPair (req.Calls[i]) = true := by
    by_contra hc
    exact hmin ⟨_, hget, by simpa using hc⟩
  obtain ⟨raw, aad, h2⟩ := (isPair_iff _).mp hp
  exact ⟨raw, aad, by rw [hget, h2]⟩

/-- Where the recorded message comes from when row `k` is the first row that is not a pair
of strings. -/
theorem message_at_bad_row {env : Env} {req : bqRequest} {k : Nat} {r : List Value}
    {m : GoString} (hk : Reached req k r) (hbad : isPair r = false)
    (hm : MsgSource env req m) :
    (r.length ≠ 2 ∧ m = arityMsg r.length) ∨
    ((∃ v, r[0]? = some v ∧ ∀ x, v ≠ Value.str x) ∧ m = cleartextTypeMsg) ∨
    ((∃ raw v, r = [Value.str raw, v] ∧ ∀ x, v ≠ Value.str x) ∧ m = aadTypeMsg) ∨
    FailureBefore env req k m := by
  cases hm with
  | arity i x hx hlen =>
    have hxbad : isPair x = false := by
      cases hp : isPair x with
      | false => rfl
      | true =>
        obtain ⟨raw, aad, rfl⟩ := (isPair_iff x).mp hp
        exact absurd rfl hlen
    obtain ⟨_, rfl⟩ := reached_unique hx hxbad hk hbad
    exact Or.inl ⟨hlen, rfl⟩
  | cleartext i x v hx h0 hv =>
    have hxbad : isPair x = false := by
      cases hp : isPair x with
      | false => rfl
      | true =>
        obtain ⟨raw, aad, rfl⟩ := (isPair_iff x).mp hp
        simp at h0
        exact absurd h0.symm (hv raw)
    obtain ⟨_, rfl⟩ := reached_unique hx hxbad hk hbad
    exact Or.inr (Or.inl ⟨⟨v, h0, hv⟩, rfl⟩)
  | aad i x raw v hx hlen h0 h1 hv =>
    have hxeq : x = [Value.str raw, v] := by
      match x, hlen, h0, h1 with
      | [a, b], _, h0, h1 =>
        simp at h0 h1
        rw [h0, h1]
    have hxbad : isPair x = false := by
      cases hp : isPair x with
      | false => rfl
      | true =>
        obtain ⟨raw2, aad, h2⟩ := (isPair_iff x).mp hp
        rw [h2] at hxeq
        simp at hxeq
        exact absurd hxeq.2.symm (hv aad)
    obtain ⟨_, rfl⟩ := reached_unique hx hxbad hk hbad
    exact Or.inr (Or.inr (Or.inl ⟨⟨raw, v, hxeq, hv⟩, rfl⟩))
  | b64 j raw aad hj hb =>
    have hle : j ≤ k := hj.le_of_bad hk.1 hbad
    have hne : j ≠ k := by
      intro hjk
      subst hjk
      have := hj.1
      rw [hk.1] at this
      simp only [Option.some.injEq] at this
      rw [this] at hbad
      simp [isPair] at hbad
    exact Or.inr (Or.inr (Or.inr ⟨j, raw, aad, by omega, hj.1, Or.inl ⟨hb, rfl⟩⟩))
  | decrypt j raw aad b hj hb hd =>
    have hle : j ≤ k := hj.le_of_bad hk.1 hbad
    have hne : j ≠ k := by
      intro hjk
      subst hjk
      have := hj.1
      rw [hk.1] at this
      simp only [Option.some.injEq] at this
      rw [this] at hbad
      simp [isPair] at hbad
    exact Or.inr (Or.inr (Or.inr ⟨j, raw, aad, by omega, hj.1, Or.inr ⟨b, hb, hd, rfl⟩⟩))

/-- When the loop can reach no empty row the handler never panics. -/
theorem never_panics {env : Env} {req : bqRequest} (hnp : ∀ i, ¬ Reached req i [])
    (sched : List Action) : (AEAD_DECRYPT env req sched).main ≠ MainPc.panicked := by
  intro hp
  exact hnp _ (panicked_reached (inv_reach env req sched) hp)

/-- The response to a request with a row that is not a pair of strings. -/
theorem bad_row_response {env : Env} {req : bqRequest} {k : Nat} {r : List Value}
    (hk : req.Calls[k]? = some r) (hbad : isPair r = false) (sched : List Action)
    (hd : (AEAD_DECRYPT env req sched).main = MainPc.done) :
    (AEAD_DECRYPT env req sched).ErrorMessage ≠ "" ∧
    (AEAD_DECRYPT env req sched).Replies = none ∧
    (AEAD_DECRYPT env req sched).body = some ("\x7b" ++
      ("\"errorMessage\":" ++ env.quote (AEAD_DECRYPT env req sched).ErrorMessage) ++
      "\x7d") := by
  have h := inv_reach env req sched
  obtain ⟨hbody, hcase⟩ := done_facts h hd
  rcases hcase with ⟨h1, h2⟩ | ⟨_, _, hlen, _⟩
  · refine ⟨h1, h2, ?_⟩
    rw [hbody, marshal_error env _ h2 h1]
    rfl
  · have h1 := workers_le_of_bad h hk hbad
    have h2 := (List.getElem?_eq_some.mp hk).1
    omega

/-- Row goroutines are started, and the library functions called, only for rows before a
row that is not a pair of strings. -/
theorem dispatch_before_bad {env : Env} {req : bqRequest} {k : Nat} {r : List Value}
    (hk : req.Calls[k]? = some r) (hbad : isPair r = false) (sched : List Action) :
    (AEAD_DECRYPT env req sched).workers.length ≤ k ∧
    (∀ w ∈ (AEAD_DECRYPT env req sched).workers, w.j < k) ∧
    (∀ j ∈ (AEAD_DECRYPT env req sched).b64Calls, j < k) ∧
    (∀ j ∈ (AEAD_DECRYPT env req sched).decryptCalls, j < k) := by
  have h := inv_reach env req sched
  have hle := workers_le_of_bad h hk hbad
  refine ⟨hle, ?_, ?_, ?_⟩
  · intro w hw
    obtain ⟨i, hi⟩ := List.mem_iff_getElem?.mp hw
    have h1 := (h.rows i w hi).1
    have h2 := (List.getElem?_eq_some.mp hi).1
    omega
  · intro j hj
    have := h.b64Calls j hj
    omega
  · intro j hj
    obtain ⟨w, hw, _⟩ := h.decCalls j hj
    have h2 := (List.getElem?_eq_some.mp hw).1
    omega

/-- The handler panics on a request whose first call entry is empty: no interleaving lets
it return or write a body, and three steps of the handler goroutine reach the panic at
`r[0]`. -/
theorem empty_entry_panics (env : Env) (req : bqRequest) (rest : List (List Value))
    (hreq : req.Calls = [] :: rest) :
    (∀ sched, (AEAD_DECRYPT env req sched).main ≠ MainPc.done ∧
      (AEAD_DECRYPT env req sched).body = none) ∧
    (AEAD_DECRYPT env req (mainSteps 3)).main = MainPc.panicked := by
  have h0 : req.Calls[0]? = some [] := by rw [hreq]; simp
  constructor
  · intro sched
    have h := inv_reach env req sched
    have hnd : (AEAD_DECRYPT env req sched).main ≠ MainPc.done := by
      intro hd
      have hw := workers_le_of_bad h h0 rfl
      have hm := h.main
      simp only [mainOk, hd, exitOk] at hm
      rcases hm.1 with ⟨_, r, hr, hne⟩ | hlen
      · have hz : (AEAD_DECRYPT env req sched).workers.length = 0 := by omega
        rw [hz, h0] at hr
        simp only [Option.some.injEq] at hr
        exact hne hr.symm
      · rw [hreq] at hlen
        simp at hlen
        omega
    exact ⟨hnd, h.body hnd⟩
  · simp [AEAD_DECRYPT, mainSteps, List.replicate, exec, step, stepMain, start, hreq, setErr]

/-- The panic at a concrete request whose first call entry is the empty array. -/
theorem empty_entry_panics_witness :
    (mkReq [[], [Value.str "bkfoo", Value.str "k"]]).Calls =
      [] :: [[Value.str "bkfoo", Value.str "k"]] ∧
    (AEAD_DECRYPT sampleEnv (mkReq [[], [Value.str "bkfoo", Value.str "k"]])
      (mainSteps 3)).main = MainPc.panicked :=
  ⟨rfl, (empty_entry_panics sampleEnv (mkReq [[], [Value.str "bkfoo", Value.str "k"]])
    [[Value.str "bkfoo", Value.str "k"]] rfl).2⟩

end BqAead

namespace BqAead

/-! ## Arity and type validation -/

/-- C4, as the code behaves.  Let some call entry have a length other than 2 (`hbad`) and
let the first entry that is not a pair of strings be non-empty, so that the loop reaches no
empty entry (`hnp`).  Then the handler never panics; in every interleaving in which it
returns, `errorMessage` is not empty, `Replies` is `nil` and the body has the single member
`errorMessage`; the message is a validation message of the first malformed entry (its arity
message, or a type message) or the failure message of a row goroutine started for an
earlier row; and every interleaving can be continued until the handler returns. -/
theorem arity_validation (env : Env) (req : bqRequest)
    (hbad : ∃ r ∈ req.Calls, r.length ≠ 2) (hnp : ∀ i, ¬ Reached req i []) :
    (∀ sched, (AEAD_DECRYPT env req sched).main ≠ MainPc.panicked) ∧
    (∀ sched, (AEAD_DECRYPT env req sched).main = MainPc.done →
      (AEAD_DECRYPT env req sched).ErrorMessage ≠ "" ∧
      (AEAD_DECRYPT env req sched).Replies = none ∧
      (AEAD_DECRYPT env req sched).body = some ("\x7b" ++
        ("\"errorMessage\":" ++ env.quote (AEAD_DECRYPT env req sched).ErrorMessage) ++
        "\x7d")) ∧
    (∃ k r, Reached req k r ∧ isPair r = false ∧ r ≠ [] ∧
      ∀ sched, (AEAD_DECRYPT env req sched).main = MainPc.done →
        (r.length ≠ 2 ∧ (AEAD_DECRYPT env req sched).ErrorMessage = arityMsg r.length) ∨
        ((∃ v, r[0]? = some v ∧ ∀ x, v ≠ Value.str x) ∧
          (AEAD_DECRYPT env req sched).ErrorMessage = cleartextTypeMsg) ∨
        ((∃ raw v, r = [Value.str raw, v] ∧ ∀ x, v ≠ Value.str x) ∧
          (AEAD_DECRYPT env req sched).ErrorMessage = aadTypeMsg) ∨
        FailureBefore env req k (AEAD_DECRYPT env req sched).ErrorMessage) ∧
    (∀ sched, ∃ rest, (AEAD_DECRYPT env req (sched ++ rest)).main = MainPc.done) := by
  have hbad2 : ∃ r ∈ req.Calls, isPair r = false := by
    obtain ⟨r, hr, hlen⟩ := hbad
    refine ⟨r, hr, ?_⟩
    cases hp : isPair r with
    | false => rfl
    | true =>
      obtain ⟨raw, aad, rfl⟩ := (isPair_iff r).mp hp
      exact absurd rfl hlen
  obtain ⟨k, r, hk, hr⟩ := exists_first_bad hbad2
  refine ⟨never_panics hnp, fun sched hd => bad_row_response hk.1 hr sched hd,
    ⟨k, r, hk, hr, ?_, ?_⟩, completes env req hnp⟩
  · intro hnil
    subst hnil
    exact hnp k hk
  · intro sched hd
    have hne := (bad_row_response hk.1 hr sched hd).1
    exact message_at_bad_row hk hr (err_source (inv_reach env req sched) hne)

set_option maxRecDepth 100000 in
/-- C4 at a concrete request with a one-element entry. -/
theorem arity_validation_witness :
    (∃ r ∈ (mkReq [[Value.str "x"]]).Calls, r.length ≠ 2) ∧
    (AEAD_DECRYPT sampleEnv (mkReq [[Value.str "x"]]) (mainSteps 8)).Replies = none :=
  ⟨⟨[Value.str "x"], by decide, by decide⟩,
   ((arity_validation sampleEnv (mkReq [[Value.str "x"]])
      ⟨[Value.str "x"], by decide, by decide⟩
      (by
        intro i h
        match i, h.1 with
        | 0, h1 => simp [mkReq] at h1
        | (n + 1), h1 => simp [mkReq] at h1)).2.1 (mainSteps 8) (by decide)).2.1⟩

set_option maxRecDepth 100000 in
/-- C4, as the claim states it, fails: the second entry has one field, the goroutine of
row 0 fails after the arity message was written, and the response carries that goroutine's
message, which is not a validation message. -/
theorem arity_message_overwritten :
    (AEAD_DECRYPT sampleEnv (mkReq [[Value.str "!!", Value.str ""], [Value.str "x"]])
      (mainSteps 9 ++ workerSteps 0 5 ++ mainSteps 6)).main = MainPc.done ∧
    (AEAD_DECRYPT sampleEnv (mkReq [[Value.str "!!", Value.str ""], [Value.str "x"]])
      (mainSteps 9 ++ workerSteps 0 5 ++ mainSteps 6)).errLog =
        [arityMsg 1, b64Msg 0] ∧
    (AEAD_DECRYPT sampleEnv (mkReq [[Value.str "!!", Value.str ""], [Value.str "x"]])
      (mainSteps 9 ++ workerSteps 0 5 ++ mainSteps 6)).body =
        some "\x7b\"errorMessage\":\"Error b64decoding row 0\"\x7d" ∧
    (AEAD_DECRYPT sampleEnv (mkReq [[Value.str "!!", Value.str ""], [Value.str "x"]])
      (mainSteps 9 ++ workerSteps 0 5 ++ mainSteps 6)).ErrorMessage ≠ arityMsg 1 ∧
    (AEAD_DECRYPT sampleEnv (mkReq [[Value.str "!!", Value.str ""], [Value.str "x"]])
      (mainSteps 9 ++ workerSteps 0 5 ++ mainSteps 6)).ErrorMessage ≠ cleartextTypeMsg ∧
    (AEAD_DECRYPT sampleEnv (mkReq [[Value.str "!!", Value.str ""], [Value.str "x"]])
      (mainSteps 9 ++ workerSteps 0 5 ++ mainSteps 6)).ErrorMessage ≠ aadTypeMsg := by
  decide

/-- C5, as the code behaves.  Let entry `k` not be a pair of strings.  Then in every state
of every interleaving no row goroutine has been started for entry `k` or a later one, and
`DecodeString` and `a.Decrypt` have been called only for rows before `k`; when the first
entry is the malformed one, no goroutine is started and `a.Decrypt` is never called. -/
theorem validation_stops_dispatch (env : Env) (req : bqRequest) (k : Nat) (r : List Value)
    (hk : req.Calls[k]? = some r) (hbad : isPair r = false) :
    (∀ sched, ∀ w ∈ (AEAD_DECRYPT env req sched).workers, w.j < k) ∧
    (∀ sched, ∀ j ∈ (AEAD_DECRYPT env req sched).b64Calls, j < k) ∧
    (∀ sched, ∀ j ∈ (AEAD_DECRYPT env req sched).decryptCalls, j < k) ∧
    (k = 0 → ∀ sched, (AEAD_DECRYPT env req sched).workers = [] ∧
      (AEAD_DECRYPT env req sched).decryptCalls = []) := by
  refine ⟨fun sched => (dispatch_before_bad hk hbad sched).2.1,
    fun sched => (dispatch_before_bad hk hbad sched).2.2.1,
    fun sched => (dispatch_before_bad hk hbad sched).2.2.2, ?_⟩
  intro hk0 sched
  subst hk0
  obtain ⟨h1, _, _, h4⟩ := @dispatch_before_bad env req 0 r hk hbad sched
  constructor
  · exact List.length_eq_zero.mp (by omega)
  · cases hl : (AEAD_DECRYPT env req sched).decryptCalls with
    | nil => rfl
    | cons j l =>
      have := h4 j (by rw [hl]; simp)
      omega

/-- C5 at a concrete request whose only entry has one field. -/
theorem validation_stops_dispatch_witness :
    (mkReq [[Value.str "x"]]).Calls[0]? = some [Value.str "x"] ∧
    (AEAD_DECRYPT sampleEnv (mkReq [[Value.str "x"]]) (mainSteps 8)).decryptCalls = [] :=
  ⟨rfl, ((validation_stops_dispatch sampleEnv (mkReq [[Value.str "x"]]) 0 [Value.str "x"]
    rfl rfl).2.2.2 rfl (mainSteps 8)).2⟩

set_option maxRecDepth 100000 in
/-- C5, as the claim states it, fails: the second entry has one field, yet a row goroutine
is started for the first entry and calls `a.Decrypt` before the handler looks at the second
entry; the handler then answers with the arity message. -/
theorem dispatch_before_validation :
    isPair [Value.str "x"] = false ∧
    (AEAD_DECRYPT sampleEnv (mkReq [[Value.str "bkfoo", Value.str "k"], [Value.str "x"]])
      (mainSteps 7 ++ workerSteps 0 3)).workers.length = 1 ∧
    (AEAD_DECRYPT sampleEnv (mkReq [[Value.str "bkfoo", Value.str "k"], [Value.str "x"]])
      (mainSteps 7 ++ workerSteps 0 3)).decryptCalls = [0] ∧
    (AEAD_DECRYPT sampleEnv (mkReq [[Value.str "bkfoo", Value.str "k"], [Value.str "x"]])
      (mainSteps 7 ++ workerSteps 0 4 ++ mainSteps 8)).main = MainPc.done ∧
    (AEAD_DECRYPT sampleEnv (mkReq [[Value.str "bkfoo", Value.str "k"], [Value.str "x"]])
      (mainSteps 7 ++ workerSteps 0 4 ++ mainSteps 8)).ErrorMessage = arityMsg 1 ∧
    (AEAD_DECRYPT sampleEnv (mkReq [[Value.str "bkfoo", Value.str "k"], [Value.str "x"]])
      (mainSteps 7 ++ workerSteps 0 4 ++ mainSteps 8)).decryptCalls = [0] := by
  decide

/-- C9, as the code behaves.  Let entry `k` have two fields that are not both strings.
Then (1) in every interleaving no row goroutine is started for entry `k` or a later one;
(2) when the loop reaches no empty entry, the handler never panics, every interleaving can
be continued until it returns, and it returns a non-empty `errorMessage` and no replies;
(3) when every entry before `k` is a pair of strings, the returned message is
`"Invalid cleartext type. expected string"` if the first field is not a string,
`"Invalid aad type. expected string"` if only the second is not, or the failure message of
a row goroutine started for an earlier row. -/
theorem type_validation (env : Env) (req : bqRequest) (k : Nat) (v0 v1 : Value)
    (hk : req.Calls[k]? = some [v0, v1]) (hbad : isPair [v0, v1] = false) :
    (∀ sched, ∀ w ∈ (AEAD_DECRYPT env req sched).workers, w.j < k) ∧
    ((∀ i, ¬ Reached req i []) →
      (∀ sched, (AEAD_DECRYPT env req sched).main ≠ MainPc.panicked) ∧
      (∀ sched, (AEAD_DECRYPT env req sched).main = MainPc.done →
        (AEAD_DECRYPT env req sched).ErrorMessage ≠ "" ∧
        (AEAD_DECRYPT env req sched).Replies = none ∧
        (AEAD_DECRYPT env req sched).body = some ("\x7b" ++
          ("\"errorMessage\":" ++ env.quote (AEAD_DECRYPT env req sched).ErrorMessage) ++
          "\x7d")) ∧
      (∀ sched, ∃ rest, (AEAD_DECRYPT env req (sched ++ rest)).main = MainPc.done)) ∧
    ((∀ i, i < k → ∃ raw aad, req.Calls[i]? = some [Value.str raw, Value.str aad]) →
      ∀ sched, (AEAD_DECRYPT env req sched).main = MainPc.done →
        ((∀ x, v0 ≠ Value.str x) ∧
          (AEAD_DECRYPT env req sched).ErrorMessage = cleartextTypeMsg) ∨
        ((∃ x, v0 = Value.str x) ∧ (∀ x, v1 ≠ Value.str x) ∧
          (AEAD_DECRYPT env req sched).ErrorMessage = aadTypeMsg) ∨
        FailureBefore env req k (AEAD_DECRYPT env req sched).ErrorMessage) := by
  refine ⟨fun sched => (dispatch_before_bad hk hbad sched).2.1, ?_, ?_⟩
  · intro hnp
    exact ⟨never_panics hnp, fun sched hd => bad_row_response hk hbad sched hd,
      completes env req hnp⟩
  · intro hbefore sched hd
    have hreach : Reached req k [v0, v1] := ⟨hk, hbefore⟩
    have hne := (bad_row_response hk hbad sched hd).1
    rcases message_at_bad_row hreach hbad (err_source (inv_reach env req sched) hne) with
      h1 | h1 | h1 | h1
    · exact absurd rfl h1.1
    · obtain ⟨⟨v, hv0, hv⟩, hm⟩ := h1
      simp only [List.getElem?_cons_zero, Option.some.injEq] at hv0
      subst hv0
      exact Or.inl ⟨hv, hm⟩
    · obtain ⟨⟨raw, v, hv, hvn⟩, hm⟩ := h1
      simp only [List.cons.injEq, and_true] at hv
      obtain ⟨hv0, hv1⟩ := hv
      subst hv1
      exact Or.inr (Or.inl ⟨⟨raw, hv0⟩, hvn, hm⟩)
    · exact Or.inr (Or.inr h1)

set_option maxRecDepth 100000 in
/-- C9 at a concrete request whose only entry has a number as first field. -/
theorem type_validation_witness :
    (mkReq [[Value.num 1, Value.str "x"]]).Calls[0]? = some [Value.num 1, Value.str "x"] ∧
    isPair [Value.num 1, Value.str "x"] = false ∧
    ((∀ x, Value.num 1 ≠ Value.str x) ∧
        (AEAD_DECRYPT sampleEnv (mkReq [[Value.num 1, Value.str "x"]])
          (mainSteps 8)).ErrorMessage = cleartextTypeMsg ∨
      (∃ x, Value.num 1 = Value.str x) ∧ (∀ x, Value.str "x" ≠ Value.str x) ∧
        (AEAD_DECRYPT sampleEnv (mkReq [[Value.num 1, Value.str "x"]])
          (mainSteps 8)).ErrorMessage = aadTypeMsg ∨
      FailureBefore sampleEnv (mkReq [[Value.num 1, Value.str "x"]]) 0
        (AEAD_DECRYPT sampleEnv (mkReq [[Value.num 1, Value.str "x"]])
          (mainSteps 8)).ErrorMessage) :=
  ⟨rfl, rfl,
   (type_validation sampleEnv (mkReq [[Value.num 1, Value.str "x"]]) 0 (Value.num 1)
      (Value.str "x") rfl rfl).2.2 (fun i hi => absurd hi (Nat.not_lt_zero i)) (mainSteps 8)
      (by decide)⟩

set_option maxRecDepth 100000 in
/-- C9, as the claim states it, fails: the request contains a two-element entry whose first
field is a number, no row goroutine ever runs, and the returned message is the arity
message of the earlier three-element entry, not a type message. -/
theorem type_message_preceded :
    (AEAD_DECRYPT sampleEnv
      (mkReq [[Value.str "a", Value.str "b", Value.str "c"], [Value.num 1, Value.str "x"]])
      (mainSteps 8)).main = MainPc.done ∧
    (AEAD_DECRYPT sampleEnv
      (mkReq [[Value.str "a", Value.str "b", Value.str "c"], [Value.num 1, Value.str "x"]])
      (mainSteps 8)).workers.length = 0 ∧
    (AEAD_DECRYPT sampleEnv
      (mkReq [[Value.str "a", Value.str "b", Value.str "c"], [Value.num 1, Value.str "x"]])
      (mainSteps 8)).errLog = [arityMsg 3] ∧
    (AEAD_DECRYPT sampleEnv
      (mkReq [[Value.str "a", Value.str "b", Value.str "c"], [Value.num 1, Value.str "x"]])
      (mainSteps 8)).ErrorMessage =
        "Invalid number of input fields provided.  expected 2, got  3" ∧
    (AEAD_DECRYPT sampleEnv
      (mkReq [[Value.str "a", Value.str "b", Value.str "c"], [Value.num 1, Value.str "x"]])
      (mainSteps 8)).ErrorMessage ≠ cleartextTypeMsg ∧
    (AEAD_DECRYPT sampleEnv
      (mkReq [[Value.str "a", Value.str "b", Value.str "c"], [Value.num 1, Value.str "x"]])
      (mainSteps 8)).ErrorMessage ≠ aadTypeMsg := by
  decide

end BqAead

namespace BqAead

/-! ## Recording of failures and the loop of a row goroutine -/

/-- No statement of the handler goroutine empties a recorded message. -/
theorem stepMain_err_ne {env : Env} {req : bqRequest} {s t : State}
    (hs : stepMain env req s = some t) (he : s.ErrorMessage ≠ "") : t.ErrorMessage ≠ "" := by
  unfold stepMain at hs
  split at hs
  all_goals first
    | (split at hs <;> first
        | (simp only [Option.some.injEq] at hs
           subst hs
           simp [setErr, he, arityMsg_ne, cleartextTypeMsg_ne, aadTypeMsg_ne])
        | exact absurd hs (by simp))
    | (simp only [Option.some.injEq] at hs
       subst hs
       simp [setErr, he])
    | exact absurd hs (by simp)

/-- No statement of a row goroutine empties a recorded message. -/
theorem stepWorker_err_ne {env : Env} {s t : State} {k : Nat}
    (hs : stepWorker env k s = some t) (he : s.ErrorMessage ≠ "") : t.ErrorMessage ≠ "" := by
  unfold stepWorker at hs
  split at hs
  · exact absurd hs (by simp)
  · split at hs
    all_goals first
      | (split at hs <;>
          (simp only [Option.some.injEq] at hs
           subst hs
           simp [setWorker, setErr, he, b64Msg_ne, decryptMsg_ne]))
      | (simp only [Option.some.injEq] at hs
         subst hs
         simp [setWorker, setErr, he, b64Msg_ne, decryptMsg_ne])
      | exact absurd hs (by simp)

/-- A schedule of one action. -/
theorem exec_one (env : Env) (req : bqRequest) (a : Action) (s : State) :
    exec env req [a] s = (step env req a s).getD s := rfl

/-- No step empties a recorded message. -/
theorem exec_one_err_ne (env : Env) (req : bqRequest) (a : Action) (s : State)
    (he : s.ErrorMessage ≠ "") : (exec env req [a] s).ErrorMessage ≠ "" := by
  rw [exec_one]
  cases hst : step env req a s with
  | none => simpa using he
  | some t =>
    simp only [Option.getD_some]
    cases a with
    | main => exact stepMain_err_ne hst he
    | worker k => exact stepWorker_err_ne hst he

/-- The handler under a schedule continued by another one. -/
theorem run_append (env : Env) (req : bqRequest) (p q : List Action) :
    AEAD_DECRYPT env req (p ++ q) = exec env req q (AEAD_DECRYPT env req p) :=
  exec_append env req p q _

/-- Six consecutive steps of a row goroutine that is at the head of its loop, with its
slot of `objs` in range, have the effect of the loop-free program. -/
theorem worker_run_eq_spec (env : Env) (req : bqRequest) (s : State) (k : Nat) (w : Worker)
    (hw : s.workers[k]? = some w) (hpc : w.pc = WorkerPc.loop) (hj : w.j < s.objs.length) :
    exec env req (workerSteps k 6) s = workerSpec env k s := by
  obtain ⟨j, raw, aad, pc, iters⟩ := w
  simp only at hpc hj
  subst hpc
  have hk : k < s.workers.length := (List.getElem?_eq_some.mp hw).1
  simp only [workerSteps, List.replicate, exec, step, workerSpec, hw]
  cases hc : s.cancelled with
  | true =>
    simp [stepWorker, setWorker, hw, hc, hk]
  | false =>
    cases hb : env.b64decode raw with
    | none => simp [stepWorker, setWorker, setErr, hw, hc, hb, hk]
    | some b =>
      cases hd : env.decrypt b (toBytes aad) with
      | none => simp [stepWorker, setWorker, setErr, hw, hc, hb, hd, hk]
      | some ec => simp [stepWorker, setWorker, setErr, hw, hc, hb, hd, hk, hj]

end BqAead

namespace BqAead

/-- C6, as the code behaves.  A row goroutine that stands at the statement recording its
failure (`bqResp.ErrorMessage = fmt.Sprintf(...)`, after a failed decode or a failed
decrypt) records it unconditionally: after its step `errorMessage` is its own message,
whatever was recorded before, and the message is appended to the log of recorded messages.
No step of any goroutine empties a recorded message, and in every state of every
interleaving `errorMessage` is the message recorded last (empty when none was recorded):
the response carries the last failure recorded, not the first. -/
theorem last_failure_wins (env : Env) (req : bqRequest) (sched : List Action) (k : Nat)
    (w : Worker) (hw : (AEAD_DECRYPT env req sched).workers[k]? = some w)
    (hpc : w.pc = WorkerPc.b64Err ∨ w.pc = WorkerPc.decErr) :
    (AEAD_DECRYPT env req (sched ++ [Action.worker k])).ErrorMessage =
      (if w.pc = WorkerPc.b64Err then b64Msg w.j else decryptMsg w.j) ∧
    (AEAD_DECRYPT env req (sched ++ [Action.worker k])).errLog =
      (AEAD_DECRYPT env req sched).errLog ++
        [if w.pc = WorkerPc.b64Err then b64Msg w.j else decryptMsg w.j] ∧
    (∀ sched2 a, (AEAD_DECRYPT env req sched2).ErrorMessage ≠ "" →
      (AEAD_DECRYPT env req (sched2 ++ [a])).ErrorMessage ≠ "") ∧
    (∀ sched2, (AEAD_DECRYPT env req sched2).ErrorMessage =
      ((AEAD_DECRYPT env req sched2).errLog.getLast?).getD "") := by
  refine ⟨?_, ?_, ?_, fun sched2 => (inv_reach env req sched2).errLast⟩
  · rw [run_append, exec_one]
    rcases hpc with hpc | hpc <;> simp [step, stepWorker, hw, hpc, setWorker, setErr]
  · rw [run_append, exec_one]
    rcases hpc with hpc | hpc <;> simp [step, stepWorker, hw, hpc, setWorker, setErr]
  · intro sched2 a he
    rw [run_append]
    exact exec_one_err_ne env req a _ he

set_option maxRecDepth 100000 in
/-- C6 at a concrete request: row 0 has recorded its failure, row 1 stands at its recording
statement, and its step replaces the recorded message. -/
theorem last_failure_wins_witness :
    (AEAD_DECRYPT sampleEnv (mkReq [[Value.str "x", Value.str ""], [Value.str "y", Value.str ""]])
      (mainSteps 14 ++ workerSteps 0 3 ++ workerSteps 1 2)).workers[1]? =
        some { j := 1, raw := "y", aad := "", pc := WorkerPc.b64Err, iters := 1 } ∧
    (AEAD_DECRYPT sampleEnv (mkReq [[Value.str "x", Value.str ""], [Value.str "y", Value.str ""]])
      (mainSteps 14 ++ workerSteps 0 3 ++ workerSteps 1 2)).ErrorMessage =
        "Error b64decoding row 0" ∧
    (AEAD_DECRYPT sampleEnv (mkReq [[Value.str "x", Value.str ""], [Value.str "y", Value.str ""]])
      (mainSteps 14 ++ workerSteps 0 3 ++ workerSteps 1 2 ++ [Action.worker 1])).ErrorMessage =
        (if WorkerPc.b64Err = WorkerPc.b64Err then b64Msg 1 else decryptMsg 1) :=
  ⟨rfl, by decide,
   (last_failure_wins sampleEnv
      (mkReq [[Value.str "x", Value.str ""], [Value.str "y", Value.str ""]])
      (mainSteps 14 ++ workerSteps 0 3 ++ workerSteps 1 2) 1
      { j := 1, raw := "y", aad := "", pc := WorkerPc.b64Err, iters := 1 } rfl
      (Or.inl rfl)).1⟩

set_option maxRecDepth 100000 in
/-- C6, as the claim states it, fails: both rows pass the cancellation check, row 0 records
its failure first, row 1 records its own although a failure is already recorded, and the
response carries the message of row 1, the second goroutine to record. -/
theorem first_failure_overwritten :
    (AEAD_DECRYPT sampleEnv (mkReq [[Value.str "x", Value.str ""], [Value.str "y", Value.str ""]])
      (mainSteps 14 ++ workerSteps 0 3 ++ workerSteps 1 2)).ErrorMessage =
        "Error b64decoding row 0" ∧
    (AEAD_DECRYPT sampleEnv (mkReq [[Value.str "x", Value.str ""], [Value.str "y", Value.str ""]])
      (mainSteps 14 ++ workerSteps 0 3 ++ workerSteps 1 3)).ErrorMessage =
        "Error b64decoding row 1" ∧
    (AEAD_DECRYPT sampleEnv (mkReq [[Value.str "x", Value.str ""], [Value.str "y", Value.str ""]])
      (mainSteps 14 ++ workerSteps 0 3 ++ workerSteps 1 5 ++ workerSteps 0 2 ++
        mainSteps 4)).main = MainPc.done ∧
    (AEAD_DECRYPT sampleEnv (mkReq [[Value.str "x", Value.str ""], [Value.str "y", Value.str ""]])
      (mainSteps 14 ++ workerSteps 0 3 ++ workerSteps 1 5 ++ workerSteps 0 2 ++
        mainSteps 4)).errLog = ["Error b64decoding row 0", "Error b64decoding row 1"] ∧
    (AEAD_DECRYPT sampleEnv (mkReq [[Value.str "x", Value.str ""], [Value.str "y", Value.str ""]])
      (mainSteps 14 ++ workerSteps 0 3 ++ workerSteps 1 5 ++ workerSteps 0 2 ++
        mainSteps 4)).body = some "\x7b\"errorMessage\":\"Error b64decoding row 1\"\x7d" := by
  decide

/-- C10 (the loop of a row goroutine).  Let the row goroutine `k` stand at the head of its
`for`/`select` loop in a state the handler has reached.  Then (1) running it to its end has
exactly the effect of the loop-free program `workerSpec`: return at once when the context is
cancelled, else decode, decrypt, and either record the failure, clear `Replies` and cancel,
or store the plaintext in `objs[j]`; (2) it has then returned after entering the loop once;
(3) in every state of every interleaving a goroutine has entered its loop at most once, and
exactly once when it has returned; (4) when the context is already cancelled, its first step
returns and changes nothing but its own record: no `DecodeString` call, no `a.Decrypt`
call, and `objs`, `errorMessage`, `Replies` and the cancellation signal are as before. -/
theorem worker_loop_refinement (env : Env) (req : bqRequest) (sched : List Action) (k : Nat)
    (w : Worker) (hw : (AEAD_DECRYPT env req sched).workers[k]? = some w)
    (hpc : w.pc = WorkerPc.loop) :
    AEAD_DECRYPT env req (sched ++ workerSteps k 6) =
      workerSpec env k (AEAD_DECRYPT env req sched) ∧
    (∃ w2, (AEAD_DECRYPT env req (sched ++ workerSteps k 6)).workers[k]? = some w2 ∧
      w2.pc = WorkerPc.done ∧ w2.iters = 1) ∧
    (∀ (sched2 : List Action) (i : Nat) (w2 : Worker),
      (AEAD_DECRYPT env req sched2).workers[i]? = some w2 →
      w2.iters ≤ 1 ∧ (w2.pc = WorkerPc.done → w2.iters = 1)) ∧
    ((AEAD_DECRYPT env req sched).cancelled = true →
      (AEAD_DECRYPT env req (sched ++ [Action.worker k])).workers =
        (AEAD_DECRYPT env req sched).workers.set k { w with pc := WorkerPc.done, iters := 1 } ∧
      (AEAD_DECRYPT env req (sched ++ [Action.worker k])).b64Calls =
        (AEAD_DECRYPT env req sched).b64Calls ∧
      (AEAD_DECRYPT env req (sched ++ [Action.worker k])).decryptCalls =
        (AEAD_DECRYPT env req sched).decryptCalls ∧
      (AEAD_DECRYPT env req (sched ++ [Action.worker k])).objs =
        (AEAD_DECRYPT env req sched).objs ∧
      (AEAD_DECRYPT env req (sched ++ [Action.worker k])).ErrorMessage =
        (AEAD_DECRYPT env req sched).ErrorMessage ∧
      (AEAD_DECRYPT env req (sched ++ [Action.worker k])).errLog =
        (AEAD_DECRYPT env req sched).errLog ∧
      (AEAD_DECRYPT env req (sched ++ [Action.worker k])).Replies =
        (AEAD_DECRYPT env req sched).Replies ∧
      (AEAD_DECRYPT env req (sched ++ [Action.worker k])).cancelled = true) := by
  have h := inv_reach env req sched
  obtain ⟨hjk, hcall, hok⟩ := h.rows k w hw
  have hit : w.iters = 0 := by
    unfold pcOk at hok
    rw [hpc] at hok
    exact hok
  have hkc : k < req.Calls.length := (List.getElem?_eq_some.mp hcall).1
  have hkw : k < (AEAD_DECRYPT env req sched).workers.length :=
    (List.getElem?_eq_some.mp hw).1
  have hj : w.j < (AEAD_DECRYPT env req sched).objs.length := by
    rw [h.objsLen, hjk]
    exact hkc
  have heq : AEAD_DECRYPT env req (sched ++ workerSteps k 6) =
      workerSpec env k (AEAD_DECRYPT env req sched) := by
    rw [run_append]
    exact worker_run_eq_spec env req _ k w hw hpc hj
  refine ⟨heq, ?_, ?_, ?_⟩
  · rw [heq]
    unfold workerSpec
    rw [hw]
    simp only
    split
    · exact ⟨{ w with pc := WorkerPc.done, iters := w.iters + 1 }, by simp [setWorker, hkw],
          rfl, by simp [hit]⟩
    · split
      · exact ⟨{ w with pc := WorkerPc.done, iters := w.iters + 1 }, by simp [setWorker, hkw],
          rfl, by simp [hit]⟩
      · split
        · exact ⟨{ w with pc := WorkerPc.done, iters := w.iters + 1 }, by simp [setWorker, hkw],
          rfl, by simp [hit]⟩
        · exact ⟨{ w with pc := WorkerPc.done, iters := w.iters + 1 }, by simp [setWorker, hkw],
          rfl, by simp [hit]⟩
  · intro sched2 i w2 hw2
    have hok2 := ((inv_reach env req sched2).rows i w2 hw2).2.2
    unfold pcOk at hok2
    constructor
    · split at hok2 <;> first | omega | exact absurd hok2 id
    · intro hd
      rw [hd] at hok2
      exact hok2.1
  · intro hc
    rw [run_append, exec_one]
    simp [step, stepWorker, hw, hpc, hc, setWorker, hit]

set_option maxRecDepth 100000 in
/-- C10 at a concrete request: the goroutine of row 1 is started after row 0 failed and
cancelled the context. -/
theorem worker_loop_refinement_witness :
    (AEAD_DECRYPT sampleEnv
      (mkReq [[Value.str "x", Value.str ""], [Value.str "bkfoo", Value.str "k"]])
      (mainSteps 13 ++ workerSteps 0 5 ++ mainSteps 1)).workers[1]? =
        some { j := 1, raw := "bkfoo", aad := "k", pc := WorkerPc.loop, iters := 0 } ∧
    (AEAD_DECRYPT sampleEnv
      (mkReq [[Value.str "x", Value.str ""], [Value.str "bkfoo", Value.str "k"]])
      (mainSteps 13 ++ workerSteps 0 5 ++ mainSteps 1)).cancelled = true ∧
    (AEAD_DECRYPT sampleEnv
      (mkReq [[Value.str "x", Value.str ""], [Value.str "bkfoo", Value.str "k"]])
      (mainSteps 13 ++ workerSteps 0 5 ++ mainSteps 1 ++ [Action.worker 1])).b64Calls =
    (AEAD_DECRYPT sampleEnv
      (mkReq [[Value.str "x", Value.str ""], [Value.str "bkfoo", Value.str "k"]])
      (mainSteps 13 ++ workerSteps 0 5 ++ mainSteps 1)).b64Calls :=
  ⟨rfl, by decide,
   ((worker_loop_refinement sampleEnv
      (mkReq [[Value.str "x", Value.str ""], [Value.str "bkfoo", Value.str "k"]])
      (mainSteps 13 ++ workerSteps 0 5 ++ mainSteps 1) 1
      { j := 1, raw := "bkfoo", aad := "k", pc := WorkerPc.loop, iters := 0 } rfl rfl).2.2.2
      (by decide)).2.1⟩

end BqAead
